import Mathlib

/-!
# Bulk ingestion pipeline of `src/workers/csvProcessor.js`

A shallow embedding of `insertToDatabaseOptimized`: the batch of parsed CSV rows
is a list of records with optional string fields, the JavaScript `Map`s and
`Set`s are insertion-ordered lists, the persisted store is a record of
collections, and the result of every `insertMany` call is given by the store
driver (which records were created, how many write errors were reported).
Around it, `processCSV` and the worker's messages are functions of what the
read stream and the parser stream reported, and the `CPUMonitor` of
`src/utils/cpuMonitor.js` is a record stepped by its sampling callback.
-/

namespace InsuredMine

/-- Persisted identifier (`_id`, an ObjectId), identified with its string rendering; as an
object it is truthy whatever its value. -/
abbrev Id := String

/-! ## Rows -/

/-- One parsed CSV row: every recognised column is a string or absent (`undefined`). -/
structure Row where
  agent : Option String
  category_name : Option String
  company_name : Option String
  firstname : Option String
  dob : Option String
  address : Option String
  city : Option String
  state : Option String
  zip : Option String
  phone : Option String
  email : Option String
  gender : Option String
  userType : Option String
  account_name : Option String
  policy_number : Option String
  policy_start_date : Option String
  policy_end_date : Option String
  deriving DecidableEq, Repr

/-- A row with every column absent; concrete batches are written as updates of it. -/
def Row.blank : Row :=
  ⟨none, none, none, none, none, none, none, none, none, none, none, none, none, none,
    none, none, none⟩

/-- JavaScript truthiness of a field value: `undefined` and `''` are falsy. -/
def truthy : Option String → Bool
  | some s => decide (s ≠ "")
  | none => false

/-- The array method `.filter(Boolean)` on a column: keeps the non-empty strings. -/
def filterBoolean (vs : List (Option String)) : List String :=
  vs.filterMap (fun v => if truthy v then v else none)

/-- The spread of `new Set(xs)`: distinct values in order of first insertion. -/
def jsSet {α : Type} [DecidableEq α] (xs : List α) : List α :=
  xs.foldl (fun acc x => if x ∈ acc then acc else acc ++ [x]) []

/-! ## JavaScript `Map` -/

/-- A JavaScript `Map`: entries in insertion order, at most one entry per key. -/
abbrev JsMap (K V : Type) := List (K × V)

namespace JsMap

variable {K V : Type} [DecidableEq K]

/-- The method `map.get(k)` (`none` is `undefined`). -/
def get (m : JsMap K V) (k : K) : Option V :=
  (m.find? (fun e => decide (e.1 = k))).map (fun e => e.2)

/-- The method `map.has(k)`. -/
def has (m : JsMap K V) (k : K) : Bool :=
  (m.get k).isSome

/-- The method `map.set(k, v)`: overwrite in place, or append a new entry. -/
def set (m : JsMap K V) (k : K) (v : V) : JsMap K V :=
  if m.has k then m.map (fun e => if e.1 = k then (k, v) else e) else m ++ [(k, v)]

/-- The constructor `new Map(entries)`: the entries are set one after the other. -/
def ofEntries (es : List (K × V)) : JsMap K V :=
  es.foldl (fun m e => m.set e.1 e.2) []

/-- The iterator `map.values()`. -/
def values (m : JsMap K V) : List V :=
  m.map (fun e => e.2)

end JsMap

/-! ## Records -/

/-- A persisted Agent, as returned by `find().lean()` or `insertMany`. -/
structure AgentDoc where
  _id : Id
  name : String
  deriving DecidableEq, Repr

/-- A persisted PolicyCategory. -/
structure CategoryDoc where
  _id : Id
  category_name : String
  deriving DecidableEq, Repr

/-- A persisted PolicyCarrier. -/
structure CarrierDoc where
  _id : Id
  company_name : String
  deriving DecidableEq, Repr

/-- A persisted User; of its attributes the pipeline reads `_id` and `email`. -/
structure UserDoc where
  _id : Id
  email : String
  deriving DecidableEq, Repr

/-- A persisted UserAccount. -/
structure AccountDoc where
  _id : Id
  name : Option String
  user : Id
  deriving DecidableEq, Repr

/-- A persisted PolicyInfo; of its attributes the pipeline reads `policyNumber`. -/
structure PolicyDoc where
  _id : Id
  policyNumber : Option String
  deriving DecidableEq, Repr

/-- The candidate `{ name }` pushed to `newAgents`. -/
structure NewAgent where
  name : String
  deriving DecidableEq, Repr

/-- The candidate `{ category_name }` pushed to `newCategories`. -/
structure NewCategory where
  category_name : String
  deriving DecidableEq, Repr

/-- The candidate `{ company_name }` pushed to `newCarriers`. -/
structure NewCarrier where
  company_name : String
  deriving DecidableEq, Repr

/-- A string the worker computes with the built-in `String.prototype.toLowerCase`, kept
as the expression that computes it: a literal, `text.toLowerCase()`, or
`text.toLowerCase().replace(' ', '_')`. The built-in is not code of the repository; it
is handed to `JsText.value`. -/
inductive JsText where
  | literal (text : String)
  | lowerCase (text : String)
  | lowerCaseReplaceBlank (text : String)
  deriving DecidableEq, Repr

/-- The nested `address` object of a user candidate. -/
structure Address where
  street : Option String
  city : Option String
  state : Option String
  zip : Option String
  deriving DecidableEq, Repr

/-- The user candidate pushed to `newUsers`; `dob` holds the argument of `new Date`. -/
structure NewUser where
  firstName : Option String
  dob : Option String
  address : Address
  phone : Option String
  state : Option String
  zipCode : Option String
  email : Option String
  gender : JsText
  userType : JsText
  deriving DecidableEq, Repr

/-- The staged `newAccount = { name, user }`; it carries no `_id`. -/
structure NewAccount where
  name : Option String
  user : Id
  deriving DecidableEq, Repr

/-- A value held by `accountLookup`: a persisted account, or a staged one without `_id`. -/
structure AccountRec where
  _id : Option Id
  name : Option String
  user : Id
  deriving DecidableEq, Repr

/-- The staged policy record; the dates hold the arguments of `new Date`. -/
structure NewPolicy where
  policyNumber : Option String
  startDate : Option String
  endDate : Option String
  policyCategory : Id
  company : Id
  user : Id
  account : Option Id
  agent : Id
  deriving DecidableEq, Repr

/-- A persisted account seen as a lookup value. -/
def AccountDoc.toRec (a : AccountDoc) : AccountRec := ⟨some a._id, a.name, a.user⟩

/-- A staged account seen as a lookup value. -/
def NewAccount.toRec (a : NewAccount) : AccountRec := ⟨none, a.name, a.user⟩

/-! ## Store -/

/-- The persisted collections. -/
structure Store where
  agents : List AgentDoc
  categories : List CategoryDoc
  carriers : List CarrierDoc
  users : List UserDoc
  accounts : List AccountDoc
  policies : List PolicyDoc
  deriving DecidableEq, Repr

/-- The store with no record. -/
def Store.empty : Store := ⟨[], [], [], [], [], []⟩

/-- What one `insertMany(docs, { ordered: false })` call did: the documents it
created and the number of uniqueness violations it met. -/
structure InsertReply (α : Type) where
  insertedDocs : List α
  writeErrors : Nat

/-- The store driver's answer to each of the six bulk inserts, given what is submitted. -/
structure StoreOps where
  insertAgents : List NewAgent → InsertReply AgentDoc
  insertCategories : List NewCategory → InsertReply CategoryDoc
  insertCarriers : List NewCarrier → InsertReply CarrierDoc
  insertUsers : List NewUser → InsertReply UserDoc
  insertAccounts : List NewAccount → InsertReply AccountDoc
  insertPolicies : List NewPolicy → InsertReply PolicyDoc

/-- The promise of `insertMany(docs, { ordered: false })`: it resolves to the created
documents, and rejects with a bulk write error (carrying `insertedDocs`) as soon as one
write error was reported. -/
def insertMany {α : Type} (r : InsertReply α) : Except (InsertReply α) (List α) :=
  if r.writeErrors > 0 then .error r else .ok r.insertedDocs

/-! ## Resolver: lines 138-202 -/

/-- Line 138. -/
def uniqueAgents (data : List Row) : List String :=
  jsSet (filterBoolean (data.map (fun row => row.agent)))

/-- Line 139. -/
def uniqueCategories (data : List Row) : List String :=
  jsSet (filterBoolean (data.map (fun row => row.category_name)))

/-- Line 140. -/
def uniqueCarriers (data : List Row) : List String :=
  jsSet (filterBoolean (data.map (fun row => row.company_name)))

/-- Line 141. -/
def uniqueEmails (data : List Row) : List String :=
  jsSet (filterBoolean (data.map (fun row => row.email)))

/-- Line 145: `Agent.find({ name: { $in: uniqueAgents } })`. -/
def existingAgents (s : Store) (data : List Row) : List AgentDoc :=
  s.agents.filter (fun a => decide (a.name ∈ uniqueAgents data))

/-- Line 146. -/
def existingCategories (s : Store) (data : List Row) : List CategoryDoc :=
  s.categories.filter (fun c => decide (c.category_name ∈ uniqueCategories data))

/-- Line 147. -/
def existingCarriers (s : Store) (data : List Row) : List CarrierDoc :=
  s.carriers.filter (fun c => decide (c.company_name ∈ uniqueCarriers data))

/-- Line 148. -/
def existingUsers (s : Store) (data : List Row) : List UserDoc :=
  s.users.filter (fun u => decide (u.email ∈ uniqueEmails data))

/-- Line 152: the agent lookup built from the store's answer. -/
def agentMap₀ (s : Store) (data : List Row) : JsMap (Option String) AgentDoc :=
  JsMap.ofEntries ((existingAgents s data).map (fun a => (some a.name, a)))

/-- Line 153. -/
def categoryMap₀ (s : Store) (data : List Row) : JsMap (Option String) CategoryDoc :=
  JsMap.ofEntries ((existingCategories s data).map (fun c => (some c.category_name, c)))

/-- Line 154. -/
def carrierMap₀ (s : Store) (data : List Row) : JsMap (Option String) CarrierDoc :=
  JsMap.ofEntries ((existingCarriers s data).map (fun c => (some c.company_name, c)))

/-- Line 155. -/
def userMap₀ (s : Store) (data : List Row) : JsMap (Option String) UserDoc :=
  JsMap.ofEntries ((existingUsers s data).map (fun u => (some u.email, u)))

/-- Lines 164-168. -/
def newAgents (s : Store) (data : List Row) : List NewAgent :=
  (uniqueAgents data).filterMap (fun name =>
    if !(agentMap₀ s data).has (some name) then some ⟨name⟩ else none)

/-- Lines 170-174. -/
def newCategories (s : Store) (data : List Row) : List NewCategory :=
  (uniqueCategories data).filterMap (fun category =>
    if !(categoryMap₀ s data).has (some category) then some ⟨category⟩ else none)

/-- Lines 176-180. -/
def newCarriers (s : Store) (data : List Row) : List NewCarrier :=
  (uniqueCarriers data).filterMap (fun company =>
    if !(carrierMap₀ s data).has (some company) then some ⟨company⟩ else none)

/-- The call `cs.replace(' ', '_')`: only the first blank is replaced. -/
def replaceFirstBlank : List Char → List Char
  | [] => []
  | c :: cs => if c = ' ' then '_' :: cs else c :: replaceFirstBlank cs

/-- The string a `JsText` denotes, given the built-in `toLowerCase` of the runtime. -/
def JsText.value (toLowerCase : String → String) : JsText → String
  | .literal text => text
  | .lowerCase text => toLowerCase text
  | .lowerCaseReplaceBlank text => String.mk (replaceFirstBlank (toLowerCase text).data)

/-- Lower-casing of the letters A to Z. On a string of ASCII characters it is the built-in
`toLowerCase`; it is only used to evaluate such strings. -/
def lowerAscii (s : String) : String := String.mk (s.data.map Char.toLower)

/-- Lines 185-200: the user candidate drawn from a row. -/
def userCandidate (row : Row) : NewUser where
  firstName := row.firstname
  dob := if truthy row.dob then row.dob else none
  address := ⟨row.address, row.city, row.state, row.zip⟩
  phone := row.phone
  state := row.state
  zipCode := row.zip
  email := row.email
  gender := match row.gender with
    | some g => if g ≠ "" then .lowerCase g else .literal "other"
    | none => .literal "other"
  userType := match row.userType with
    | some t => if t ≠ "" then .lowerCaseReplaceBlank t else .literal "individual"
    | none => .literal "individual"

/-- Lines 182-202. -/
def newUsers (s : Store) (data : List Row) : List NewUser :=
  (uniqueEmails data).filterMap (fun email =>
    match data.find? (fun r => decide (r.email = some email)) with
    | some row => if !(userMap₀ s data).has (some email) then some (userCandidate row) else none
    | none => none)

/-! ## Bulk writer: lines 204-216 -/

/-- The conditional call `docs.length > 0 ? Model.insertMany(docs, ...) : []`. -/
def insertIfAny {α β : Type} (docs : List α) (insert : List α → InsertReply β) :
    Except (InsertReply β) (List β) :=
  if docs.length > 0 then insertMany (insert docs) else .ok []

/-- The documents a bulk insert left in its collection, whether its promise resolved
or rejected. -/
def persistedBy {β : Type} : Except (InsertReply β) (List β) → List β
  | .ok docs => docs
  | .error err => err.insertedDocs

/-- Line 206. -/
def createdAgents (ops : StoreOps) (s : Store) (data : List Row) : List AgentDoc :=
  persistedBy (insertIfAny (newAgents s data) ops.insertAgents)

/-- Line 207. -/
def createdCategories (ops : StoreOps) (s : Store) (data : List Row) : List CategoryDoc :=
  persistedBy (insertIfAny (newCategories s data) ops.insertCategories)

/-- Line 208. -/
def createdCarriers (ops : StoreOps) (s : Store) (data : List Row) : List CarrierDoc :=
  persistedBy (insertIfAny (newCarriers s data) ops.insertCarriers)

/-- Line 209. -/
def createdUsers (ops : StoreOps) (s : Store) (data : List Row) : List UserDoc :=
  persistedBy (insertIfAny (newUsers s data) ops.insertUsers)

/-- Lines 205-210: `Promise.all` over the four inserts rejects when one of them does. -/
def bulkInsertRejects (ops : StoreOps) (s : Store) (data : List Row) : Bool :=
  match insertIfAny (newAgents s data) ops.insertAgents,
    insertIfAny (newCategories s data) ops.insertCategories,
    insertIfAny (newCarriers s data) ops.insertCarriers,
    insertIfAny (newUsers s data) ops.insertUsers with
  | .ok _, .ok _, .ok _, .ok _ => false
  | _, _, _, _ => true

/-- Line 213: the agent lookup after the created agents are merged. -/
def agentMap (ops : StoreOps) (s : Store) (data : List Row) : JsMap (Option String) AgentDoc :=
  (createdAgents ops s data).foldl (fun m a => m.set (some a.name) a) (agentMap₀ s data)

/-- Line 214. -/
def categoryMap (ops : StoreOps) (s : Store) (data : List Row) :
    JsMap (Option String) CategoryDoc :=
  (createdCategories ops s data).foldl (fun m c => m.set (some c.category_name) c)
    (categoryMap₀ s data)

/-- Line 215. -/
def carrierMap (ops : StoreOps) (s : Store) (data : List Row) :
    JsMap (Option String) CarrierDoc :=
  (createdCarriers ops s data).foldl (fun m c => m.set (some c.company_name) c)
    (carrierMap₀ s data)

/-- Line 216. -/
def userMap (ops : StoreOps) (s : Store) (data : List Row) : JsMap (Option String) UserDoc :=
  (createdUsers ops s data).foldl (fun m u => m.set (some u.email) u) (userMap₀ s data)

/-! ## Relationship linker: lines 218-302 -/

/-- A template-literal substitution: an absent value prints as `undefined`. -/
def template : Option String → String
  | some s => s
  | none => "undefined"

/-- Lines 227, 243, 288, 297: the lookup key of an account. -/
def accountKeyOf (name : Option String) (user : Id) : String :=
  template name ++ "_" ++ user

/-- Line 224. -/
def userIds (ops : StoreOps) (s : Store) (data : List Row) : List Id :=
  (userMap ops s data).values.map (fun u => u._id)

/-- Line 225: `UserAccount.find({ user: { $in: userIds } })`. -/
def existingAccounts (ops : StoreOps) (s : Store) (data : List Row) : List AccountDoc :=
  s.accounts.filter (fun acc => decide (acc.user ∈ userIds ops s data))

/-- Lines 221-229: the account lookup seeded with the existing accounts. -/
def accountLookup₀ (ops : StoreOps) (s : Store) (data : List Row) : JsMap String AccountRec :=
  (existingAccounts ops s data).foldl
    (fun m acc => m.set (accountKeyOf acc.name acc.user) acc.toRec) []

/-- Line 232. -/
def policyNumbers (data : List Row) : List String :=
  filterBoolean (data.map (fun row => row.policy_number))

/-- Lines 233-235: `PolicyInfo.find({ policyNumber: { $in: policyNumbers } })`. -/
def existingPolicies (s : Store) (data : List Row) : List PolicyDoc :=
  s.policies.filter (fun p => decide (p.policyNumber ∈ (policyNumbers data).map some))

/-- Line 236. -/
def existingPolicyNumbers (s : Store) (data : List Row) : List (Option String) :=
  jsSet ((existingPolicies s data).map (fun p => p.policyNumber))

/-- The three accumulators of the staging loop. -/
structure Staging where
  accountsToInsert : List NewAccount
  policiesToInsert : List NewPolicy
  accountLookup : JsMap String AccountRec
  deriving DecidableEq, Repr

/-- Lines 243-253 of the loop body: stage the account of a row whose user is `user`. -/
def stageAccount (st : Staging) (row : Row) (user : UserDoc) : Staging :=
  let accountKey := accountKeyOf row.account_name user._id
  if !st.accountLookup.has accountKey then
    let newAccount : NewAccount := ⟨row.account_name, user._id⟩
    { st with
      accountsToInsert := st.accountsToInsert ++ [newAccount]
      accountLookup := st.accountLookup.set accountKey newAccount.toRec }
  else st

/-- Lines 255-273 of the loop body: stage the policy of a row whose user is `user`.
The lookup holds an entry under `accountKey` here (it was registered just before), so
the member access of line 269 cannot fail. -/
def stagePolicy (ops : StoreOps) (s : Store) (data : List Row) (st : Staging) (row : Row)
    (user : UserDoc) : Staging :=
  let accountKey := accountKeyOf row.account_name user._id
  if !decide (row.policy_number ∈ existingPolicyNumbers s data) then
    match (categoryMap ops s data).get row.category_name,
      (carrierMap ops s data).get row.company_name,
      (agentMap ops s data).get row.agent with
    | some policyCategory, some policyCarrier, some agent =>
      { st with
        policiesToInsert := st.policiesToInsert ++ [{
          policyNumber := row.policy_number
          startDate := row.policy_start_date
          endDate := row.policy_end_date
          policyCategory := policyCategory._id
          company := policyCarrier._id
          user := user._id
          account := (st.accountLookup.get accountKey).bind (fun acc => acc._id)
          agent := agent._id }] }
    | _, _, _ => st
  else st

/-- Lines 239-274: the body of the staging loop for one row. -/
def stageRow (ops : StoreOps) (s : Store) (data : List Row) (st : Staging) (row : Row) :
    Staging :=
  match (userMap ops s data).get row.email with
  | none => st
  | some user => stagePolicy ops s data (stageAccount st row user) row user

/-- Lines 219-274: the accumulators after the staging loop. -/
def staging (ops : StoreOps) (s : Store) (data : List Row) : Staging :=
  data.foldl (stageRow ops s data) ⟨[], [], accountLookup₀ ops s data⟩

/-- The list `accountsToInsert` handed to the account bulk insert. -/
def accountsToInsert (ops : StoreOps) (s : Store) (data : List Row) : List NewAccount :=
  (staging ops s data).accountsToInsert

/-- The list `policiesToInsert` as staged by the loop, before the account fix-up pass. -/
def stagedPolicies (ops : StoreOps) (s : Store) (data : List Row) : List NewPolicy :=
  (staging ops s data).policiesToInsert

/-- Lines 277-284: the account insert; its rejection is caught and answered with
`err.insertedDocs || []`. -/
def createdAccounts (ops : StoreOps) (s : Store) (data : List Row) : List AccountDoc :=
  match insertIfAny (accountsToInsert ops s data) ops.insertAccounts with
  | .ok docs => docs
  | .error err => err.insertedDocs

/-- Lines 286-290: the account lookup after the created accounts are merged. -/
def accountLookup (ops : StoreOps) (s : Store) (data : List Row) : JsMap String AccountRec :=
  (createdAccounts ops s data).foldl
    (fun m acc => m.set (accountKeyOf acc.name acc.user) acc.toRec)
    (staging ops s data).accountLookup

/-- Lines 295-301: the fix-up of one staged policy. Reading `row.email` of a missing
row, or `user._id` of an unresolved user, throws a TypeError. -/
def updatePolicyAccount (ops : StoreOps) (s : Store) (data : List Row) (policy : NewPolicy) :
    Except String NewPolicy :=
  match data.find? (fun r => decide (r.policy_number = policy.policyNumber)) with
  | none => .error "TypeError"
  | some row =>
    match (userMap ops s data).get row.email with
    | none => .error "TypeError"
    | some user =>
      let accountKey := accountKeyOf row.account_name user._id
      match (accountLookup ops s data).get accountKey with
      | some account =>
        match account._id with
        | some accountId => .ok { policy with account := some accountId }
        | none => .ok policy
      | none => .ok policy

/-- Lines 294-302: the fix-up pass over the staged policies, in order. -/
def updatePolicyAccounts (ops : StoreOps) (s : Store) (data : List Row) :
    List NewPolicy → Except String (List NewPolicy)
  | [] => .ok []
  | policy :: rest =>
    match updatePolicyAccount ops s data policy with
    | .error e => .error e
    | .ok policy' =>
      match updatePolicyAccounts ops s data rest with
      | .error e => .error e
      | .ok rest' => .ok (policy' :: rest')

/-- The list `policiesToInsert` handed to the policy bulk insert, when the run gets there. -/
def policiesToInsert (ops : StoreOps) (s : Store) (data : List Row) :
    Except String (List NewPolicy) :=
  updatePolicyAccounts ops s data (stagedPolicies ops s data)

/-- Lines 304-310: the documents the policy insert created; its rejection is caught. -/
def createdPolicies (ops : StoreOps) (s : Store) (data : List Row) : List PolicyDoc :=
  match policiesToInsert ops s data with
  | .ok policies => persistedBy (insertIfAny policies ops.insertPolicies)
  | .error _ => []

/-! ## The run: lines 135-328 -/

/-- The store after the four concurrent inserts of lines 205-210. -/
def storeAfterBulkInsert (ops : StoreOps) (s : Store) (data : List Row) : Store :=
  { s with
    agents := s.agents ++ createdAgents ops s data
    categories := s.categories ++ createdCategories ops s data
    carriers := s.carriers ++ createdCarriers ops s data
    users := s.users ++ createdUsers ops s data }

/-- The store a run leaves behind, whether it succeeds or throws. -/
def storeAfter (ops : StoreOps) (s : Store) (data : List Row) : Store :=
  if bulkInsertRejects ops s data then storeAfterBulkInsert ops s data
  else
    { storeAfterBulkInsert ops s data with
      accounts := s.accounts ++ createdAccounts ops s data
      policies := s.policies ++ createdPolicies ops s data }

/-- The function `insertToDatabaseOptimized`: `.ok true` when it returns `true`, an error
when it throws (a rejected bulk insert of lines 205-210, or a TypeError of the fix-up
pass; both are rethrown by the `catch` block). -/
def insertToDatabaseOptimized (ops : StoreOps) (s : Store) (data : List Row) :
    Except String Bool :=
  if bulkInsertRejects ops s data then .error "BulkWriteError"
  else
    match policiesToInsert ops s data with
    | .error e => .error e
    | .ok _ => .ok true

/-! ## Summary and worker: lines 14-39, 312-318, 330-344 -/

/-- The counts interpolated into the log line of lines 312-318. -/
structure Summary where
  newAgents : Nat
  existingAgents : Nat
  newCategories : Nat
  existingCategories : Nat
  newCarriers : Nat
  existingCarriers : Nat
  newUsers : Nat
  existingUsers : Nat
  newAccounts : Nat
  newPolicies : Nat
  deriving DecidableEq, Repr

/-- Lines 312-318: the summary a run writes to the console, when it gets there. -/
def loggedSummary (ops : StoreOps) (s : Store) (data : List Row) : Except String Summary :=
  if bulkInsertRejects ops s data then .error "BulkWriteError"
  else
    match policiesToInsert ops s data with
    | .error e => .error e
    | .ok policies =>
      .ok {
        newAgents := (newAgents s data).length
        existingAgents := (existingAgents s data).length
        newCategories := (newCategories s data).length
        existingCategories := (existingCategories s data).length
        newCarriers := (newCarriers s data).length
        existingCarriers := (existingCarriers s data).length
        newUsers := (newUsers s data).length
        existingUsers := (existingUsers s data).length
        newAccounts := (accountsToInsert ops s data).length
        newPolicies := policies.length }

/-- What happens on `fs.createReadStream(filePath).pipe(csv())` (lines 18-19). The
handlers of lines 20-37 are registered on the parser stream that `pipe` returns: they see
the rows of the `data` events followed by `end`, or an `error` of the parser. An `error`
of the read stream itself (a file that cannot be read) is not forwarded by `pipe` and has
no listener. -/
inductive StreamOutcome where
  | ended (results : List Row)
  | error (message : String)
  | readError (message : String)
  deriving DecidableEq, Repr

/-- The message a worker posts to its parent (lines 333-337 and 340-343). -/
inductive WorkerMessage where
  | success (rowCount : Nat) (data : List Row)
  | failure (error : String)
  deriving DecidableEq, Repr

/-- The effects of `processCSV`: how its promise settles (resolved with the rows, or
rejected with the message of an error; `none` when it never settles because the
unhandled `error` event is thrown as an uncaught exception, which ends the worker) and
the paths handed to `fs.unlink`. -/
structure ProcessOutcome where
  settled : Option (Except String (List Row))
  unlinked : List String
  deriving Repr

/-- Lines 14-39: `processCSV`. -/
def processCSV (filePath : String) (stream : StreamOutcome) (ops : StoreOps) (s : Store) :
    ProcessOutcome :=
  match stream with
  | .ended results =>
    match insertToDatabaseOptimized ops s results with
    | .ok _ => { settled := some (.ok results), unlinked := [filePath] }
    | .error dbError => { settled := some (.error dbError), unlinked := [] }
  | .error error => { settled := some (.error error), unlinked := [] }
  | .readError _ => { settled := none, unlinked := [] }

/-- Lines 330-344: the messages the worker posts for `workerData.filePath`. -/
def postedMessages (filePath : String) (stream : StreamOutcome) (ops : StoreOps) (s : Store) :
    List WorkerMessage :=
  match (processCSV filePath stream ops s).settled with
  | some (.ok data) => [.success data.length data]
  | some (.error error) => [.failure error]
  | none => []

/-! ## CPU monitor: src/utils/cpuMonitor.js -/

/-- The fields of a `CPUMonitor`; usage samples and the threshold are fractions, of which
the monitor only uses the order. `monitorInterval` tells whether a timer handle is held. -/
structure CPUMonitor where
  threshold : ℚ
  checkInterval : Nat
  isMonitoring : Bool
  consecutiveHighUsage : Nat
  requiredConsecutiveChecks : Nat
  monitorInterval : Bool
  deriving DecidableEq, Repr

namespace CPUMonitor

/-- Lines 5-11: the constructor. -/
def new (threshold : ℚ) (checkInterval : Nat) : CPUMonitor where
  threshold := threshold
  checkInterval := checkInterval
  isMonitoring := false
  consecutiveHighUsage := 0
  requiredConsecutiveChecks := 3
  monitorInterval := false

/-- Lines 13-22 and 43-44: `start` arms the timer, unless the monitor is running. -/
def start (m : CPUMonitor) : CPUMonitor :=
  if m.isMonitoring then m else { m with isMonitoring := true, monitorInterval := true }

/-- Lines 46-52: `stop`. -/
def stop (m : CPUMonitor) : CPUMonitor :=
  if m.monitorInterval then { m with isMonitoring := false } else m

/-- Lines 23-42: the callback run on one usage sample; the flag tells whether it invoked
`restartServer`, which begins with `stop` (line 55). -/
def onUsage (m : CPUMonitor) (usage : ℚ) : CPUMonitor × Bool :=
  if usage ≥ m.threshold then
    let m₁ := { m with consecutiveHighUsage := m.consecutiveHighUsage + 1 }
    if m₁.consecutiveHighUsage ≥ m₁.requiredConsecutiveChecks then (m₁.stop, true)
    else (m₁, false)
  else ({ m with consecutiveHighUsage := 0 }, false)

/-- The monitor after the callback ran on each sample of a sequence, in order. -/
def feed (m : CPUMonitor) (samples : List ℚ) : CPUMonitor :=
  samples.foldl (fun m usage => (m.onUsage usage).1) m

end CPUMonitor

/-- The length of the trailing run of samples that are at least `threshold`. -/
def trailingRun (threshold : ℚ) (samples : List ℚ) : Nat :=
  (samples.reverse.takeWhile (fun usage => decide (usage ≥ threshold))).length

/-! ## Predicates of the statements -/

/-- The gates of lines 240-241, 256 and 261: what a row must pass for the loop to stage
its policy. -/
def passesPolicyGates (ops : StoreOps) (s : Store) (data : List Row) (row : Row) : Bool :=
  (userMap ops s data).has row.email &&
    !decide (row.policy_number ∈ existingPolicyNumbers s data) &&
    (categoryMap ops s data).has row.category_name &&
    (carrierMap ops s data).has row.company_name &&
    (agentMap ops s data).has row.agent

/-- Lines 240-253 of the loop body alone: the account of the row is staged, its policy
is not considered. -/
def stageAccountOnly (ops : StoreOps) (s : Store) (data : List Row) (st : Staging)
    (row : Row) : Staging :=
  match (userMap ops s data).get row.email with
  | none => st
  | some user => stageAccount st row user

/-- The lookup key of a staged account (line 243). -/
def NewAccount.key (a : NewAccount) : String := accountKeyOf a.name a.user

/-- The lookup key of a persisted account (lines 227, 288). -/
def AccountDoc.key (a : AccountDoc) : String := accountKeyOf a.name a.user

/-- The loop invariant of the account staging, after the rows `rows` were processed:
`accts` is `accountsToInsert` and `lookup` is `accountLookup`. -/
structure StagingInv (ops : StoreOps) (s : Store) (data : List Row) (rows : List Row)
    (accts : List NewAccount) (lookup : JsMap String AccountRec) : Prop where
  has_iff : ∀ k, lookup.has k = true ↔
    ((accountLookup₀ ops s data).has k = true ∨ k ∈ accts.map NewAccount.key)
  nodup : (accts.map NewAccount.key).Nodup
  fresh : ∀ a ∈ accts, (accountLookup₀ ops s data).has a.key = false
  source : ∀ a ∈ accts, ∃ row ∈ rows, ∃ u,
    (userMap ops s data).get row.email = some u ∧ a = ⟨row.account_name, u._id⟩
  cover : ∀ row ∈ rows, ∀ u, (userMap ops s data).get row.email = some u →
    lookup.has (accountKeyOf row.account_name u._id) = true
  value : ∀ k v, lookup.get k = some v →
    (accountLookup₀ ops s data).get k = some v ∨ k ∈ accts.map NewAccount.key

/-- The row `row` is the source of the staged policy `q`: its user, category, carrier
and agent resolved, and `q` carries their identifiers and the row's policy number. -/
def PolicySource (ops : StoreOps) (s : Store) (data : List Row) (row : Row) (q : NewPolicy) :
    Prop :=
  ∃ u c k a, (userMap ops s data).get row.email = some u ∧
    (categoryMap ops s data).get row.category_name = some c ∧
    (carrierMap ops s data).get row.company_name = some k ∧
    (agentMap ops s data).get row.agent = some a ∧
    q.policyCategory = c._id ∧ q.company = k._id ∧ q.user = u._id ∧ q.agent = a._id ∧
    q.policyNumber = row.policy_number

/-- The inserts of a run persist every staged agent, category, carrier, user and account
exactly as submitted: the agent, category, carrier and user inserts report no write
error, and the documents each of the five inserts created carry, in order, the keys of
the submitted records. What the policy insert persists is stated apart, since the
`required` validators of `PolicyInfoSchema` keep some staged policies out. -/
def PersistsAsSubmitted (ops : StoreOps) (s : Store) (data : List Row) : Prop :=
  ((ops.insertAgents (newAgents s data)).writeErrors = 0 ∧
    (ops.insertAgents (newAgents s data)).insertedDocs.map (fun d => d.name) =
      (newAgents s data).map (fun a => a.name)) ∧
  ((ops.insertCategories (newCategories s data)).writeErrors = 0 ∧
    (ops.insertCategories (newCategories s data)).insertedDocs.map (fun d => d.category_name) =
      (newCategories s data).map (fun c => c.category_name)) ∧
  ((ops.insertCarriers (newCarriers s data)).writeErrors = 0 ∧
    (ops.insertCarriers (newCarriers s data)).insertedDocs.map (fun d => d.company_name) =
      (newCarriers s data).map (fun c => c.company_name)) ∧
  ((ops.insertUsers (newUsers s data)).writeErrors = 0 ∧
    (ops.insertUsers (newUsers s data)).insertedDocs.map (fun d => some d.email) =
      (newUsers s data).map (fun u => u.email)) ∧
  (ops.insertAccounts (accountsToInsert ops s data)).insertedDocs.map
      (fun d => (d.name, d.user)) =
    (accountsToInsert ops s data).map (fun a => (a.name, a.user))

/-! ## Store drivers and batches -/

/-- A store driver that creates every submitted record exactly as submitted and reports
no write error; each identifier is derived from the record's natural key. -/
def StoreOps.persistAll : StoreOps where
  insertAgents := fun docs => ⟨docs.map (fun d => ⟨"agent:" ++ d.name, d.name⟩), 0⟩
  insertCategories := fun docs =>
    ⟨docs.map (fun d => ⟨"category:" ++ d.category_name, d.category_name⟩), 0⟩
  insertCarriers := fun docs =>
    ⟨docs.map (fun d => ⟨"carrier:" ++ d.company_name, d.company_name⟩), 0⟩
  insertUsers := fun docs =>
    ⟨docs.map (fun d => ⟨"user:" ++ template d.email, template d.email⟩), 0⟩
  insertAccounts := fun docs =>
    ⟨docs.map (fun d => ⟨"account:" ++ accountKeyOf d.name d.user, d.name, d.user⟩), 0⟩
  insertPolicies := fun docs =>
    ⟨docs.map (fun d => ⟨"policy:" ++ template d.policyNumber, d.policyNumber⟩), 0⟩

/-- A store driver whose account insert meets a uniqueness violation on every submitted
account: it creates nothing and reports one write error. The other inserts create every
record. -/
def StoreOps.dropAccounts : StoreOps :=
  { StoreOps.persistAll with insertAccounts := fun _ => ⟨[], 1⟩ }

/-- A row with the six key columns filled in. -/
def Row.ofKeys (agent category company email account number : String) : Row :=
  { Row.blank with
    agent := some agent
    category_name := some category
    company_name := some company
    email := some email
    account_name := some account
    policy_number := some number }

/-- One complete row. -/
def singleRowBatch : List Row :=
  [Row.ofKeys "Ann" "Auto" "Acme" "a@x.com" "A1" "P1"]

/-- Two complete rows of different users that carry the same policy number. -/
def sameNumberBatch : List Row :=
  [Row.ofKeys "Ann" "Auto" "Acme" "a@x.com" "A1" "P1",
    Row.ofKeys "Ann" "Auto" "Acme" "b@x.com" "B1" "P1"]

/-- A first row without email, then a complete row with the same policy number. -/
def unresolvedFirstBatch : List Row :=
  [Row.ofKeys "Ann" "Auto" "Acme" "" "A1" "P1",
    Row.ofKeys "Ann" "Auto" "Acme" "a@x.com" "A1" "P1"]

/-- Two rows of one user: the first has no account name, the second is named
`undefined`. -/
def absentNameBatch : List Row :=
  [{ Row.ofKeys "Ann" "Auto" "Acme" "a@x.com" "" "P1" with account_name := none },
    Row.ofKeys "Ann" "Auto" "Acme" "a@x.com" "undefined" "P2"]

/-- A row without agent, then a complete row of another user. -/
def agentlessBatch : List Row :=
  [Row.ofKeys "" "Auto" "Acme" "a@x.com" "A1" "P1",
    Row.ofKeys "Ann" "Auto" "Acme" "b@x.com" "B1" "P2"]

/-- The `enum` of `gender` in `UserSchema` (src/schemas/index.js, line 45). -/
def genderEnum : List String := ["male", "female", "other"]

/-- The row `base` with the six key columns set. -/
def Row.withKeys (base : Row) (agent category company email account number : String) : Row :=
  { base with
    agent := some agent
    category_name := some category
    company_name := some company
    email := some email
    account_name := some account
    policy_number := some number }

/-- The three-row scenario: two rows of `a@x.com` in category Auto with the numbers P1
and P2, one row of `b@x.com` in category Home with the number P3; the agents, carriers,
account names and the other columns are left open. -/
def scenarioBatch (b₁ b₂ b₃ : Row) (a₁ a₂ a₃ k₁ k₂ k₃ n₁ n₂ n₃ : String) : List Row :=
  [b₁.withKeys a₁ "Auto" k₁ "a@x.com" n₁ "P1",
    b₂.withKeys a₂ "Auto" k₂ "a@x.com" n₂ "P2",
    b₃.withKeys a₃ "Home" k₃ "b@x.com" n₃ "P3"]

/-- One complete row whose gender column holds `Unknown`. -/
def unknownGenderBatch : List Row :=
  [{ Row.ofKeys "Ann" "Auto" "Acme" "a@x.com" "A1" "P1" with gender := some "Unknown" }]

/-- A row with the columns that the `required` validators of the schemas ask for beside
the key columns: a first name and a policy start date. -/
def Row.named : Row :=
  { Row.blank with firstname := some "Ann", policy_start_date := some "2024-01-01" }

/-- The three-row scenario with a first name and a start date in every row. -/
def namedScenarioBatch : List Row :=
  scenarioBatch Row.named Row.named Row.named "Ann" "Ann" "Ann" "Acme" "Acme" "Acme"
    "A1" "A2" "B1"

/-- The three-row scenario with no other column than the six key columns. -/
def bareScenarioBatch : List Row :=
  scenarioBatch Row.blank Row.blank Row.blank "Ann" "Ann" "Ann" "Acme" "Acme" "Acme"
    "A1" "A2" "B1"

/-- A row whose agent column holds one blank, then a row whose agent column is empty;
both are complete otherwise. -/
def blankAgentBatch : List Row :=
  [Row.named.withKeys " " "Auto" "Acme" "a@x.com" "A1" "P1",
    Row.named.withKeys "" "Auto" "Acme" "b@x.com" "B1" "P2"]

/-- A store driver that stores the agent name of one blank as the empty name, as the
`trim` setter of `AgentSchema.name` does (src/schemas/index.js, line 10); every other
record is created as submitted. -/
def StoreOps.trimBlankAgent : StoreOps :=
  { StoreOps.persistAll with
    insertAgents := fun docs =>
      ⟨docs.map (fun d => ⟨"agent:" ++ d.name, if d.name = " " then "" else d.name⟩), 0⟩ }

/-- A store driver that applies the `required` validator of `UserSchema.firstName`
(src/schemas/index.js, line 28): with `ordered: false` the user candidates without first
name are left out and no error is reported; every other record is created as submitted. -/
def StoreOps.requireFirstName : StoreOps :=
  { StoreOps.persistAll with
    insertUsers := fun docs =>
      ⟨(docs.filter (fun d => truthy d.firstName)).map
        (fun d => ⟨"user:" ++ template d.email, template d.email⟩), 0⟩ }

/-! ## Lemmas on `Set` and `Map` -/

theorem mem_foldl_insert {α : Type} [DecidableEq α] (xs acc : List α) (x : α) :
    x ∈ xs.foldl (fun acc x => if x ∈ acc then acc else acc ++ [x]) acc ↔ x ∈ acc ∨ x ∈ xs := by
  induction xs generalizing acc with
  | nil => simp
  | cons y ys ih =>
    rw [List.foldl_cons, ih]
    by_cases hy : y ∈ acc
    · simp only [hy, if_true, List.mem_cons]
      constructor
      · rintro (h | h)
        · exact Or.inl h
        · exact Or.inr (Or.inr h)
      · rintro (h | h | h)
        · exact Or.inl h
        · exact Or.inl (h ▸ hy)
        · exact Or.inr h
    · simp only [hy, if_false, List.mem_append, List.mem_singleton, List.mem_cons]
      tauto

theorem nodup_foldl_insert {α : Type} [DecidableEq α] (xs acc : List α) (h : acc.Nodup) :
    (xs.foldl (fun acc x => if x ∈ acc then acc else acc ++ [x]) acc).Nodup := by
  induction xs generalizing acc with
  | nil => simpa using h
  | cons y ys ih =>
    rw [List.foldl_cons]
    apply ih
    by_cases hy : y ∈ acc
    · simpa [hy] using h
    · simp only [hy, if_false]
      rw [List.nodup_append]
      refine ⟨h, List.nodup_singleton y, ?_⟩
      intro a ha hb
      rw [List.mem_singleton] at hb
      exact hy (hb ▸ ha)

theorem mem_jsSet {α : Type} [DecidableEq α] (xs : List α) (x : α) : x ∈ jsSet xs ↔ x ∈ xs := by
  unfold jsSet
  rw [mem_foldl_insert]
  simp

theorem nodup_jsSet {α : Type} [DecidableEq α] (xs : List α) : (jsSet xs).Nodup :=
  nodup_foldl_insert xs [] List.nodup_nil

theorem mem_filterBoolean (vs : List (Option String)) (v : String) :
    v ∈ filterBoolean vs ↔ v ≠ "" ∧ some v ∈ vs := by
  unfold filterBoolean
  rw [List.mem_filterMap]
  constructor
  · rintro ⟨a, ha, h⟩
    cases a with
    | none => simp [truthy] at h
    | some w =>
      by_cases hw : w = ""
      · simp [truthy, hw] at h
      · simp [truthy, hw] at h
        subst h
        exact ⟨hw, ha⟩
  · rintro ⟨hv, hm⟩
    exact ⟨some v, hm, by simp [truthy, hv]⟩

/-- The distinct non-empty values of a column. -/
theorem mem_unique_column (data : List Row) (f : Row → Option String) (v : String) :
    v ∈ jsSet (filterBoolean (data.map f)) ↔ v ≠ "" ∧ ∃ row ∈ data, f row = some v := by
  rw [mem_jsSet, mem_filterBoolean, List.mem_map]

namespace JsMap

variable {K V : Type} [DecidableEq K]

theorem get_nil (k : K) : get ([] : JsMap K V) k = none := rfl

theorem get_cons (e : K × V) (m : JsMap K V) (k : K) :
    get (e :: m) k = if e.1 = k then some e.2 else get m k := by
  unfold get
  rw [List.find?_cons]
  by_cases h : e.1 = k <;> simp [h]

theorem get_append_singleton (m : JsMap K V) (k k' : K) (v : V) :
    get (m ++ [(k, v)]) k' = match get m k' with
      | some w => some w
      | none => if k = k' then some v else none := by
  induction m with
  | nil =>
    rw [List.nil_append, get_cons, get_nil]
  | cons e m ih =>
    rw [List.cons_append, get_cons, get_cons]
    by_cases h : e.1 = k'
    · simp [h]
    · simp only [h, if_false]
      exact ih

theorem get_map_replace (m : JsMap K V) (k k' : K) (v : V) :
    get (m.map (fun e => if e.1 = k then (k, v) else e)) k' =
      if k' = k then (get m k).map (fun _ => v) else get m k' := by
  induction m with
  | nil => simp [get_nil]
  | cons e m ih =>
    simp only [List.map_cons, get_cons]
    rw [ih]
    by_cases h : e.1 = k
    · by_cases h' : k' = k
      · subst h'
        simp [h]
      · have h1 : ¬ k = k' := fun x => h' x.symm
        have h2 : ¬ e.1 = k' := fun x => h' (x.symm.trans h)
        simp [h, h', h1, h2]
    · by_cases h' : k' = k
      · subst h'
        simp [h]
      · simp [h, h']

/-- Reading a map after `set`. -/
theorem get_set (m : JsMap K V) (k k' : K) (v : V) :
    get (set m k v) k' = if k' = k then some v else get m k' := by
  unfold set has
  cases hg : get m k with
  | none =>
    simp only [Option.isSome_none, Bool.false_eq_true, if_false]
    rw [get_append_singleton]
    by_cases h : k' = k
    · subst h; simp [hg]
    · have : ¬ k = k' := fun x => h x.symm
      simp only [h, this, if_false]
      cases get m k' <;> rfl
  | some w =>
    simp only [Option.isSome_some, if_true]
    rw [get_map_replace, hg]
    simp

theorem has_set (m : JsMap K V) (k k' : K) (v : V) :
    has (set m k v) k' = (decide (k' = k) || has m k') := by
  unfold has
  rw [get_set]
  by_cases h : k' = k <;> simp [h]

end JsMap

/-- Mapping a projection over a guarded `filterMap` gives a filter. -/
theorem map_filterMap_guard {α β γ : Type} (l : List α) (F : α → Option β) (g : β → γ)
    (p : α → Bool) (c : α → γ)
    (h : ∀ a ∈ l, (F a).map g = if p a then some (c a) else none) :
    (l.filterMap F).map g = (l.filter p).map c := by
  induction l with
  | nil => rfl
  | cons a l ih =>
    have ha := h a (List.mem_cons_self a l)
    have ih' := ih (fun b hb => h b (List.mem_cons_of_mem a hb))
    rw [List.filterMap_cons, List.filter_cons]
    cases hF : F a with
    | none =>
      rw [hF] at ha
      cases hp : p a with
      | false => simpa [hp] using ih'
      | true => simp [hp] at ha
    | some b =>
      rw [hF] at ha
      cases hp : p a with
      | false => simp [hp] at ha
      | true =>
        simp only [hp, if_true, Option.map_some', Option.some.injEq] at ha
        simp [ha, ih']

/-- A key that occurs in a column is found by `data.find`. -/
theorem find_of_mem_column (data : List Row) (f : Row → Option String) (v : Option String)
    (h : ∃ row ∈ data, f row = v) :
    ∃ row, data.find? (fun r => decide (f r = v)) = some row ∧ f row = v := by
  obtain ⟨row, hr, e⟩ := h
  cases hf : data.find? (fun r => decide (f r = v)) with
  | none =>
    rw [List.find?_eq_none] at hf
    exact absurd (by simpa using e) (hf row hr)
  | some r =>
    exact ⟨r, rfl, by simpa using List.find?_some hf⟩

theorem newAgents_names (s : Store) (data : List Row) :
    (newAgents s data).map (fun a => a.name) =
      (uniqueAgents data).filter (fun k => !(agentMap₀ s data).has (some k)) := by
  unfold newAgents
  rw [map_filterMap_guard _ _ _ (fun k => !(agentMap₀ s data).has (some k)) (fun k => k)]
  · simp
  · intro a _
    by_cases h : (agentMap₀ s data).has (some a) <;> simp [h]

theorem newCategories_names (s : Store) (data : List Row) :
    (newCategories s data).map (fun c => c.category_name) =
      (uniqueCategories data).filter (fun k => !(categoryMap₀ s data).has (some k)) := by
  unfold newCategories
  rw [map_filterMap_guard _ _ _ (fun k => !(categoryMap₀ s data).has (some k)) (fun k => k)]
  · simp
  · intro a _
    by_cases h : (categoryMap₀ s data).has (some a) <;> simp [h]

theorem newCarriers_names (s : Store) (data : List Row) :
    (newCarriers s data).map (fun c => c.company_name) =
      (uniqueCarriers data).filter (fun k => !(carrierMap₀ s data).has (some k)) := by
  unfold newCarriers
  rw [map_filterMap_guard _ _ _ (fun k => !(carrierMap₀ s data).has (some k)) (fun k => k)]
  · simp
  · intro a _
    by_cases h : (carrierMap₀ s data).has (some a) <;> simp [h]

theorem newUsers_emails (s : Store) (data : List Row) :
    (newUsers s data).map (fun u => u.email) =
      ((uniqueEmails data).filter (fun k => !(userMap₀ s data).has (some k))).map some := by
  unfold newUsers
  apply map_filterMap_guard
  intro a ha
  have hm := (mem_unique_column data (fun row => row.email) a).1 ha
  obtain ⟨row, hf, he⟩ := find_of_mem_column data (fun row => row.email) (some a) hm.2
  rw [hf]
  by_cases h : (userMap₀ s data).has (some a) <;> simp [h, userCandidate, he]

namespace JsMap

variable {K V : Type} [DecidableEq K]

theorem has_eq_true_iff (m : JsMap K V) (k : K) : has m k = true ↔ ∃ v, get m k = some v := by
  unfold has
  exact Option.isSome_iff_exists

theorem has_eq_false_iff (m : JsMap K V) (k : K) : has m k = false ↔ get m k = none := by
  unfold has
  cases get m k <;> simp

/-- Reading a map after a `forEach` of `set`: a key none of the documents carries. -/
theorem get_foldl_set_of_not_mem {α : Type} (docs : List α) (key : α → K) (val : α → V)
    (m : JsMap K V) (k : K) (h : ∀ a ∈ docs, key a ≠ k) :
    get (docs.foldl (fun m a => set m (key a) (val a)) m) k = get m k := by
  induction docs generalizing m with
  | nil => rfl
  | cons a docs ih =>
    rw [List.foldl_cons, ih _ (fun b hb => h b (List.mem_cons_of_mem a hb)), get_set]
    have : ¬ k = key a := fun e => h a (List.mem_cons_self a docs) e.symm
    simp [this]

/-- Reading a map after a `forEach` of `set`: a key some document carries. -/
theorem get_foldl_set_of_mem {α : Type} (docs : List α) (key : α → K) (val : α → V)
    (m : JsMap K V) (k : K) (h : ∃ a ∈ docs, key a = k) :
    ∃ a ∈ docs, key a = k ∧
      get (docs.foldl (fun m a => set m (key a) (val a)) m) k = some (val a) := by
  induction docs generalizing m with
  | nil =>
    obtain ⟨a, ha, _⟩ := h
    cases ha
  | cons a docs ih =>
    rw [List.foldl_cons]
    by_cases hd : ∃ b ∈ docs, key b = k
    · obtain ⟨b, hb, e, hg⟩ := ih (set m (key a) (val a)) hd
      exact ⟨b, List.mem_cons_of_mem a hb, e, hg⟩
    · have hn : ∀ b ∈ docs, key b ≠ k := fun b hb e => hd ⟨b, hb, e⟩
      obtain ⟨b, hb, e⟩ := h
      rcases List.mem_cons.1 hb with rfl | hb'
      · refine ⟨b, List.mem_cons_self b docs, e, ?_⟩
        rw [get_foldl_set_of_not_mem docs key val _ k hn, get_set]
        simp [e]
      · exact absurd e (hn b hb')

theorem get_foldl_set_cases {α : Type} (docs : List α) (key : α → K) (val : α → V)
    (m : JsMap K V) (k : K) (v : V)
    (h : get (docs.foldl (fun m a => set m (key a) (val a)) m) k = some v) :
    (get m k = some v ∧ ∀ a ∈ docs, key a ≠ k) ∨ ∃ a ∈ docs, key a = k ∧ val a = v := by
  by_cases hd : ∃ b ∈ docs, key b = k
  · obtain ⟨b, hb, e, hg⟩ := get_foldl_set_of_mem docs key val m k hd
    rw [hg] at h
    exact Or.inr ⟨b, hb, e, Option.some.inj h⟩
  · have hn : ∀ b ∈ docs, key b ≠ k := fun b hb e => hd ⟨b, hb, e⟩
    rw [get_foldl_set_of_not_mem docs key val m k hn] at h
    exact Or.inl ⟨h, hn⟩

theorem has_foldl_set {α : Type} (docs : List α) (key : α → K) (val : α → V)
    (m : JsMap K V) (k : K) :
    has (docs.foldl (fun m a => set m (key a) (val a)) m) k = true ↔
      has m k = true ∨ ∃ a ∈ docs, key a = k := by
  constructor
  · intro h
    obtain ⟨v, hv⟩ := (has_eq_true_iff _ _).1 h
    rcases get_foldl_set_cases docs key val m k v hv with ⟨h1, _⟩ | ⟨a, ha, e, _⟩
    · exact Or.inl ((has_eq_true_iff _ _).2 ⟨v, h1⟩)
    · exact Or.inr ⟨a, ha, e⟩
  · intro h
    by_cases hd : ∃ b ∈ docs, key b = k
    · obtain ⟨b, _, _, hg⟩ := get_foldl_set_of_mem docs key val m k hd
      exact (has_eq_true_iff _ _).2 ⟨_, hg⟩
    · have hn : ∀ b ∈ docs, key b ≠ k := fun b hb e => hd ⟨b, hb, e⟩
      rcases h with h | h
      · obtain ⟨v, hv⟩ := (has_eq_true_iff _ _).1 h
        exact (has_eq_true_iff _ _).2 ⟨v, by rw [get_foldl_set_of_not_mem docs key val m k hn, hv]⟩
      · exact absurd h hd

theorem has_ofEntries (es : List (K × V)) (k : K) :
    has (ofEntries es) k = true ↔ ∃ e ∈ es, e.1 = k := by
  unfold ofEntries
  rw [has_foldl_set es (fun e => e.1) (fun e => e.2) [] k]
  simp [has, get_nil]

theorem get_ofEntries_mem (es : List (K × V)) (k : K) (v : V)
    (h : get (ofEntries es) k = some v) : (k, v) ∈ es := by
  unfold ofEntries at h
  rcases get_foldl_set_cases es (fun e => e.1) (fun e => e.2) [] k v h with ⟨h1, _⟩ | ⟨e, he, e1, e2⟩
  · simp [get_nil] at h1
  · cases e
    simp only at e1 e2
    subst e1 e2
    exact he

/-- A value read from a map is one of its values. -/
theorem mem_values_of_get (m : JsMap K V) (k : K) (v : V) (h : get m k = some v) :
    v ∈ values m := by
  unfold get at h
  unfold values
  cases hf : m.find? (fun e => decide (e.1 = k)) with
  | none => simp [hf] at h
  | some e =>
    rw [hf] at h
    simp only [Option.map_some', Option.some.injEq] at h
    exact List.mem_map.2 ⟨e, List.mem_of_find?_eq_some hf, h⟩

end JsMap

/-! ## Resolver claims -/

/-- C6: for each of the four kinds the key list sent to the existence query has no
duplicates, holds no empty value, and holds a value exactly when some row carries that
(non-empty) value in the kind's column. -/
theorem unique_keys_exact (data : List Row) :
    ((uniqueAgents data).Nodup ∧ "" ∉ uniqueAgents data ∧
      ∀ v, v ∈ uniqueAgents data ↔ v ≠ "" ∧ ∃ row ∈ data, row.agent = some v) ∧
    ((uniqueCategories data).Nodup ∧ "" ∉ uniqueCategories data ∧
      ∀ v, v ∈ uniqueCategories data ↔ v ≠ "" ∧ ∃ row ∈ data, row.category_name = some v) ∧
    ((uniqueCarriers data).Nodup ∧ "" ∉ uniqueCarriers data ∧
      ∀ v, v ∈ uniqueCarriers data ↔ v ≠ "" ∧ ∃ row ∈ data, row.company_name = some v) ∧
    ((uniqueEmails data).Nodup ∧ "" ∉ uniqueEmails data ∧
      ∀ v, v ∈ uniqueEmails data ↔ v ≠ "" ∧ ∃ row ∈ data, row.email = some v) := by
  refine ⟨⟨nodup_jsSet _, ?_, mem_unique_column data (fun row => row.agent)⟩,
    ⟨nodup_jsSet _, ?_, mem_unique_column data (fun row => row.category_name)⟩,
    ⟨nodup_jsSet _, ?_, mem_unique_column data (fun row => row.company_name)⟩,
    ⟨nodup_jsSet _, ?_, mem_unique_column data (fun row => row.email)⟩⟩
  · exact fun h => ((mem_unique_column data (fun row => row.agent) "").1 h).1 rfl
  · exact fun h => ((mem_unique_column data (fun row => row.category_name) "").1 h).1 rfl
  · exact fun h => ((mem_unique_column data (fun row => row.company_name) "").1 h).1 rfl
  · exact fun h => ((mem_unique_column data (fun row => row.email) "").1 h).1 rfl

/-- C7: for each of the four kinds the keys of the to-create list are pairwise distinct,
and a key is in the list exactly when it is a non-empty value of the kind's column in
the batch and the lookup map built from the store's answer has no entry for it; every
user candidate is drawn from the first row that carries its email. -/
theorem to_create_exact (s : Store) (data : List Row) :
    (((newAgents s data).map (fun a => a.name)).Nodup ∧
      ∀ k, k ∈ (newAgents s data).map (fun a => a.name) ↔
        (k ≠ "" ∧ ∃ row ∈ data, row.agent = some k) ∧
          (agentMap₀ s data).has (some k) = false) ∧
    (((newCategories s data).map (fun c => c.category_name)).Nodup ∧
      ∀ k, k ∈ (newCategories s data).map (fun c => c.category_name) ↔
        (k ≠ "" ∧ ∃ row ∈ data, row.category_name = some k) ∧
          (categoryMap₀ s data).has (some k) = false) ∧
    (((newCarriers s data).map (fun c => c.company_name)).Nodup ∧
      ∀ k, k ∈ (newCarriers s data).map (fun c => c.company_name) ↔
        (k ≠ "" ∧ ∃ row ∈ data, row.company_name = some k) ∧
          (carrierMap₀ s data).has (some k) = false) ∧
    (((newUsers s data).map (fun u => u.email)).Nodup ∧
      (∀ e, e ∈ (newUsers s data).map (fun u => u.email) ↔
        ∃ k, e = some k ∧ (k ≠ "" ∧ ∃ row ∈ data, row.email = some k) ∧
          (userMap₀ s data).has (some k) = false) ∧
      ∀ u ∈ newUsers s data, ∃ row,
        data.find? (fun r => decide (r.email = u.email)) = some row ∧
          u = userCandidate row) := by
  refine ⟨⟨?_, ?_⟩, ⟨?_, ?_⟩, ⟨?_, ?_⟩, ?_, ?_, ?_⟩
  · rw [newAgents_names]
    exact (nodup_jsSet _).filter _
  · intro k
    rw [newAgents_names, List.mem_filter, uniqueAgents, mem_unique_column]
    simp
  · rw [newCategories_names]
    exact (nodup_jsSet _).filter _
  · intro k
    rw [newCategories_names, List.mem_filter, uniqueCategories, mem_unique_column]
    simp
  · rw [newCarriers_names]
    exact (nodup_jsSet _).filter _
  · intro k
    rw [newCarriers_names, List.mem_filter, uniqueCarriers, mem_unique_column]
    simp
  · rw [newUsers_emails]
    exact ((nodup_jsSet _).filter _).map (Option.some_injective _)
  · intro e
    rw [newUsers_emails, List.mem_map]
    constructor
    · rintro ⟨k, hk, rfl⟩
      rw [List.mem_filter, uniqueEmails, mem_unique_column] at hk
      exact ⟨k, rfl, hk.1, by simpa using hk.2⟩
    · rintro ⟨k, rfl, hk, hh⟩
      refine ⟨k, ?_, rfl⟩
      rw [List.mem_filter, uniqueEmails, mem_unique_column]
      exact ⟨hk, by simpa using hh⟩
  · intro u hu
    unfold newUsers at hu
    rw [List.mem_filterMap] at hu
    obtain ⟨k, _, hk⟩ := hu
    cases hf : data.find? (fun r => decide (r.email = some k)) with
    | none => simp [hf] at hk
    | some row =>
      rw [hf] at hk
      have he : row.email = some k := by simpa using List.find?_some hf
      by_cases hh : (userMap₀ s data).has (some k)
      · simp [hh] at hk
      · simp only [hh, Bool.not_false, if_true, Option.some.injEq, Bool.false_eq_true] at hk
        subst hk
        refine ⟨row, ?_, rfl⟩
        simpa [userCandidate, he] using hf

/-! ## Staging loop and fix-up pass -/

theorem stageAccount_policies (st : Staging) (row : Row) (user : UserDoc) :
    (stageAccount st row user).policiesToInsert = st.policiesToInsert := by
  unfold stageAccount
  dsimp only
  split <;> rfl

theorem stagePolicy_accounts (ops : StoreOps) (s : Store) (data : List Row) (st : Staging)
    (row : Row) (user : UserDoc) :
    (stagePolicy ops s data st row user).accountsToInsert = st.accountsToInsert ∧
      (stagePolicy ops s data st row user).accountLookup = st.accountLookup := by
  unfold stagePolicy
  split
  · split <;> exact ⟨rfl, rfl⟩
  · exact ⟨rfl, rfl⟩

theorem stageRow_numbers (ops : StoreOps) (s : Store) (data : List Row) (st : Staging)
    (row : Row) :
    (stageRow ops s data st row).policiesToInsert.map (fun p => p.policyNumber) =
      st.policiesToInsert.map (fun p => p.policyNumber) ++
        (if passesPolicyGates ops s data row then [row.policy_number] else []) := by
  unfold stageRow passesPolicyGates JsMap.has
  cases hu : (userMap ops s data).get row.email with
  | none => simp
  | some user =>
    simp only [Option.isSome_some, Bool.true_and]
    unfold stagePolicy
    by_cases hn : row.policy_number ∈ existingPolicyNumbers s data
    · simp [hn, stageAccount_policies]
    · cases hc : (categoryMap ops s data).get row.category_name <;>
        cases hk : (carrierMap ops s data).get row.company_name <;>
        cases ha : (agentMap ops s data).get row.agent <;>
        simp [hn, stageAccount_policies]

theorem foldl_stageRow_numbers (ops : StoreOps) (s : Store) (data rows : List Row)
    (st : Staging) :
    (rows.foldl (stageRow ops s data) st).policiesToInsert.map (fun p => p.policyNumber) =
      st.policiesToInsert.map (fun p => p.policyNumber) ++
        (rows.filter (passesPolicyGates ops s data)).map (fun row => row.policy_number) := by
  induction rows generalizing st with
  | nil => simp
  | cons row rows ih =>
    rw [List.foldl_cons, ih, stageRow_numbers, List.filter_cons]
    by_cases h : passesPolicyGates ops s data row <;> simp [h]

theorem updatePolicyAccount_fields (ops : StoreOps) (s : Store) (data : List Row)
    (p p' : NewPolicy) (h : updatePolicyAccount ops s data p = .ok p') :
    p' = { p with account := p'.account } := by
  unfold updatePolicyAccount at h
  split at h
  · cases h
  · split at h
    · cases h
    · dsimp only at h
      split at h
      · split at h
        · cases h
          rfl
        · cases h
          rfl
      · cases h
        rfl

theorem updatePolicyAccounts_fields (ops : StoreOps) (s : Store) (data : List Row)
    (ps ps' : List NewPolicy) (h : updatePolicyAccounts ops s data ps = .ok ps') :
    List.Forall₂ (fun p p' => p' = { p with account := p'.account }) ps ps' := by
  induction ps generalizing ps' with
  | nil =>
    unfold updatePolicyAccounts at h
    cases h
    exact List.Forall₂.nil
  | cons p ps ih =>
    unfold updatePolicyAccounts at h
    split at h
    · cases h
    · rename_i q hq
      split at h
      · cases h
      · rename_i qs hqs
        cases h
        exact List.Forall₂.cons (updatePolicyAccount_fields ops s data p q hq) (ih qs hqs)

theorem updatePolicyAccounts_numbers (ops : StoreOps) (s : Store) (data : List Row)
    (ps ps' : List NewPolicy) (h : updatePolicyAccounts ops s data ps = .ok ps') :
    ps'.map (fun p => p.policyNumber) = ps.map (fun p => p.policyNumber) := by
  have h2 := updatePolicyAccounts_fields ops s data ps ps' h
  clear h
  induction h2 with
  | nil => rfl
  | cons hp _ ih =>
    rw [List.map_cons, List.map_cons, ih, hp]

theorem stageRow_accounts (ops : StoreOps) (s : Store) (data : List Row) (st : Staging)
    (row : Row) :
    (stageRow ops s data st row).accountsToInsert =
        (stageAccountOnly ops s data st row).accountsToInsert ∧
      (stageRow ops s data st row).accountLookup =
        (stageAccountOnly ops s data st row).accountLookup := by
  unfold stageRow stageAccountOnly
  cases (userMap ops s data).get row.email with
  | none => exact ⟨rfl, rfl⟩
  | some user => exact stagePolicy_accounts ops s data _ row user

theorem stageAccount_of_has (st : Staging) (row : Row) (user : UserDoc)
    (h : st.accountLookup.has (accountKeyOf row.account_name user._id) = true) :
    stageAccount st row user = st := by
  unfold stageAccount
  simp [h]

theorem stageAccount_of_not_has (st : Staging) (row : Row) (user : UserDoc)
    (h : st.accountLookup.has (accountKeyOf row.account_name user._id) = false) :
    (stageAccount st row user).accountsToInsert =
        st.accountsToInsert ++ [⟨row.account_name, user._id⟩] ∧
      (stageAccount st row user).accountLookup =
        st.accountLookup.set (accountKeyOf row.account_name user._id)
          ⟨none, row.account_name, user._id⟩ := by
  unfold stageAccount
  simp [h, NewAccount.toRec]

theorem StagingInv.init (ops : StoreOps) (s : Store) (data : List Row) :
    StagingInv ops s data [] [] (accountLookup₀ ops s data) where
  has_iff := by simp
  nodup := List.nodup_nil
  fresh := by simp
  source := by simp
  cover := by simp
  value := fun _ _ h => Or.inl h

theorem StagingInv.step (ops : StoreOps) (s : Store) (data rows : List Row) (st : Staging)
    (row : Row) (h : StagingInv ops s data rows st.accountsToInsert st.accountLookup) :
    StagingInv ops s data (rows ++ [row]) (stageRow ops s data st row).accountsToInsert
      (stageRow ops s data st row).accountLookup := by
  rw [(stageRow_accounts ops s data st row).1, (stageRow_accounts ops s data st row).2]
  unfold stageAccountOnly
  cases hu : (userMap ops s data).get row.email with
  | none =>
    refine ⟨h.has_iff, h.nodup, h.fresh, ?_, ?_, h.value⟩
    · intro a ha
      obtain ⟨r, hr, u, hg, e⟩ := h.source a ha
      exact ⟨r, List.mem_append_left _ hr, u, hg, e⟩
    · intro r hr u hg
      rcases List.mem_append.1 hr with hr | hr
      · exact h.cover r hr u hg
      · rw [List.mem_singleton] at hr
        subst hr
        rw [hu] at hg
        cases hg
  | some user =>
    simp only
    cases hk : st.accountLookup.has (accountKeyOf row.account_name user._id) with
    | true =>
      rw [stageAccount_of_has st row user hk]
      refine ⟨h.has_iff, h.nodup, h.fresh, ?_, ?_, h.value⟩
      · intro a ha
        obtain ⟨r, hr, u, hg, e⟩ := h.source a ha
        exact ⟨r, List.mem_append_left _ hr, u, hg, e⟩
      · intro r hr u hg
        rcases List.mem_append.1 hr with hr | hr
        · exact h.cover r hr u hg
        · rw [List.mem_singleton] at hr
          subst hr
          rw [hu] at hg
          cases hg
          exact hk
    | false =>
      obtain ⟨e1, e2⟩ := stageAccount_of_not_has st row user hk
      rw [e1, e2]
      have hnot : ¬ ((accountLookup₀ ops s data).has
            (accountKeyOf row.account_name user._id) = true ∨
          accountKeyOf row.account_name user._id ∈ st.accountsToInsert.map NewAccount.key) :=
        fun hc => by
          rw [(h.has_iff _).2 hc] at hk
          cases hk
      refine ⟨?_, ?_, ?_, ?_, ?_, ?_⟩
      · intro k
        rw [JsMap.has_set, List.map_append, List.mem_append, Bool.or_eq_true, h.has_iff]
        simp only [decide_eq_true_eq, List.map_cons, List.map_nil, List.mem_singleton,
          NewAccount.key]
        tauto
      · rw [List.map_append, List.nodup_append]
        refine ⟨h.nodup, List.nodup_singleton _, ?_⟩
        intro k hk1 hk2
        simp only [List.map_cons, List.map_nil, List.mem_singleton, NewAccount.key] at hk2
        exact hnot (Or.inr (hk2 ▸ hk1))
      · intro a ha
        rcases List.mem_append.1 ha with ha | ha
        · exact h.fresh a ha
        · rw [List.mem_singleton] at ha
          subst ha
          cases hl : (accountLookup₀ ops s data).has
              (NewAccount.key ⟨row.account_name, user._id⟩) with
          | false => rfl
          | true => exact absurd (Or.inl hl) hnot
      · intro a ha
        rcases List.mem_append.1 ha with ha | ha
        · obtain ⟨r, hr, u, hg, e⟩ := h.source a ha
          exact ⟨r, List.mem_append_left _ hr, u, hg, e⟩
        · rw [List.mem_singleton] at ha
          exact ⟨row, List.mem_append_right _ (List.mem_singleton_self row), user, hu, ha⟩
      · intro r hr u hg
        rw [JsMap.has_set, Bool.or_eq_true]
        rcases List.mem_append.1 hr with hr | hr
        · exact Or.inr (h.cover r hr u hg)
        · rw [List.mem_singleton] at hr
          subst hr
          rw [hu] at hg
          cases hg
          exact Or.inl (by simp)
      · intro k v hg
        rw [JsMap.get_set] at hg
        by_cases hkk : k = accountKeyOf row.account_name user._id
        · right
          rw [List.map_append, List.mem_append]
          right
          simp [NewAccount.key, hkk]
        · simp only [hkk, if_false] at hg
          rcases h.value k v hg with h1 | h1
          · exact Or.inl h1
          · right
            rw [List.map_append, List.mem_append]
            exact Or.inl h1

theorem StagingInv.foldl (ops : StoreOps) (s : Store) (data pre rows : List Row)
    (st : Staging) (h : StagingInv ops s data pre st.accountsToInsert st.accountLookup) :
    StagingInv ops s data (pre ++ rows)
      (rows.foldl (stageRow ops s data) st).accountsToInsert
      (rows.foldl (stageRow ops s data) st).accountLookup := by
  induction rows generalizing pre st with
  | nil => simpa using h
  | cons row rows ih =>
    have := ih (pre ++ [row]) (stageRow ops s data st row) (h.step ops s data pre st row)
    simpa using this

/-- The loop invariant holds when the staging loop ends. -/
theorem staging_inv (ops : StoreOps) (s : Store) (data : List Row) :
    StagingInv ops s data data (accountsToInsert ops s data)
      (staging ops s data).accountLookup := by
  have := StagingInv.foldl ops s data [] data ⟨[], [], accountLookup₀ ops s data⟩
    (StagingInv.init ops s data)
  simpa [accountsToInsert, staging] using this

/-- The staged accounts only grow along the loop. -/
theorem foldl_stageRow_accounts_prefix (ops : StoreOps) (s : Store) (data rows : List Row)
    (st : Staging) :
    ∃ extra, (rows.foldl (stageRow ops s data) st).accountsToInsert =
      st.accountsToInsert ++ extra := by
  induction rows generalizing st with
  | nil => exact ⟨[], by simp⟩
  | cons row rows ih =>
    obtain ⟨extra, he⟩ := ih (stageRow ops s data st row)
    rw [List.foldl_cons, he, (stageRow_accounts ops s data st row).1]
    unfold stageAccountOnly
    cases (userMap ops s data).get row.email with
    | none => exact ⟨extra, rfl⟩
    | some user =>
      simp only
      cases hk : st.accountLookup.has (accountKeyOf row.account_name user._id) with
      | true =>
        rw [stageAccount_of_has st row user hk]
        exact ⟨extra, rfl⟩
      | false =>
        rw [(stageAccount_of_not_has st row user hk).1, List.append_assoc]
        exact ⟨_, rfl⟩

theorem truthy_of_mem_unique (data : List Row) (f : Row → Option String) (v : String)
    (h : v ∈ jsSet (filterBoolean (data.map f))) : truthy (some v) = true := by
  have := ((mem_unique_column data f v).1 h).1
  simp [truthy, this]

/-- Every key of the agent lookup is a non-empty name, when the agent insert returns
documents of submitted candidates. -/
theorem agentMap_key_truthy (ops : StoreOps) (s : Store) (data : List Row)
    (hsub : ∀ d ∈ createdAgents ops s data, d.name ∈ (newAgents s data).map (fun a => a.name))
    (k : Option String) (h : (agentMap ops s data).has k = true) : truthy k = true := by
  unfold agentMap at h
  rw [JsMap.has_foldl_set (createdAgents ops s data) (fun a => some a.name) (fun a => a)] at h
  rcases h with h | ⟨d, hd, e⟩
  · unfold agentMap₀ at h
    rw [JsMap.has_ofEntries] at h
    obtain ⟨e, he, rfl⟩ := h
    obtain ⟨a, ha, rfl⟩ := List.mem_map.1 he
    unfold existingAgents at ha
    rw [List.mem_filter] at ha
    exact truthy_of_mem_unique data (fun row => row.agent) a.name (by simpa using ha.2)
  · subst e
    have h1 := hsub d hd
    rw [newAgents_names, List.mem_filter] at h1
    exact truthy_of_mem_unique data (fun row => row.agent) d.name h1.1

theorem stagePolicy_of_no_agent (ops : StoreOps) (s : Store) (data : List Row) (st : Staging)
    (row : Row) (user : UserDoc) (h : (agentMap ops s data).get row.agent = none) :
    stagePolicy ops s data st row user = st := by
  unfold stagePolicy
  dsimp only
  split
  · split
    · rename_i h1 h2 h3
      rw [h] at h3
      cases h3
    · rfl
  · rfl

/-- A value read from a lookup built from existing documents and merged with created
ones is one of these documents, and bears the key it is read under. -/
theorem JsMap.get_merged_mem {K α : Type} [DecidableEq K] (existing created : List α)
    (key : α → K) (k : K) (v : α)
    (h : JsMap.get (created.foldl (fun m a => JsMap.set m (key a) a)
      (JsMap.ofEntries (existing.map (fun a => (key a, a))))) k = some v) :
    v ∈ existing ++ created ∧ key v = k := by
  rcases JsMap.get_foldl_set_cases created key (fun a => a) _ k v h with ⟨h1, _⟩ | ⟨a, ha, e1, e2⟩
  · have hm := JsMap.get_ofEntries_mem _ k v h1
    obtain ⟨a, ha, e⟩ := List.mem_map.1 hm
    cases e
    exact ⟨List.mem_append_left _ ha, rfl⟩
  · subst e2
    exact ⟨List.mem_append_right _ ha, e1⟩

theorem stageRow_policy_source (ops : StoreOps) (s : Store) (data : List Row) (st : Staging)
    (row : Row) (q : NewPolicy) (h : q ∈ (stageRow ops s data st row).policiesToInsert) :
    q ∈ st.policiesToInsert ∨ PolicySource ops s data row q := by
  unfold stageRow at h
  cases hu : (userMap ops s data).get row.email with
  | none =>
    rw [hu] at h
    exact Or.inl h
  | some user =>
    rw [hu] at h
    simp only at h
    unfold stagePolicy at h
    dsimp only at h
    split at h
    · split at h
      · rename_i c k a hc hk ha
        simp only [stageAccount_policies, List.mem_append, List.mem_singleton] at h
        rcases h with h | h
        · exact Or.inl h
        · subst h
          exact Or.inr ⟨user, c, k, a, hu, hc, hk, ha, rfl, rfl, rfl, rfl, rfl⟩
      · rw [stageAccount_policies] at h
        exact Or.inl h
    · rw [stageAccount_policies] at h
      exact Or.inl h

theorem foldl_stageRow_policy_source (ops : StoreOps) (s : Store) (data rows : List Row)
    (st : Staging) (q : NewPolicy)
    (h : q ∈ (rows.foldl (stageRow ops s data) st).policiesToInsert) :
    q ∈ st.policiesToInsert ∨ ∃ row ∈ rows, PolicySource ops s data row q := by
  induction rows generalizing st with
  | nil => exact Or.inl h
  | cons row rows ih =>
    rw [List.foldl_cons] at h
    rcases ih _ h with h1 | ⟨r, hr, hs⟩
    · rcases stageRow_policy_source ops s data st row q h1 with h2 | h2
      · exact Or.inl h2
      · exact Or.inr ⟨row, List.mem_cons_self row rows, h2⟩
    · exact Or.inr ⟨r, List.mem_cons_of_mem row hr, hs⟩

/-- Every staged policy has a source row in the batch. -/
theorem staged_policy_source (ops : StoreOps) (s : Store) (data : List Row) (q : NewPolicy)
    (h : q ∈ stagedPolicies ops s data) : ∃ row ∈ data, PolicySource ops s data row q := by
  unfold stagedPolicies staging at h
  rcases foldl_stageRow_policy_source ops s data data _ q h with h1 | h1
  · cases h1
  · exact h1

theorem updatePolicyAccounts_mem (ops : StoreOps) (s : Store) (data : List Row)
    (qs ps : List NewPolicy) (h : updatePolicyAccounts ops s data qs = .ok ps) (p : NewPolicy)
    (hp : p ∈ ps) : ∃ q ∈ qs, updatePolicyAccount ops s data q = .ok p := by
  induction qs generalizing ps with
  | nil =>
    unfold updatePolicyAccounts at h
    cases h
    cases hp
  | cons q qs ih =>
    unfold updatePolicyAccounts at h
    split at h
    · cases h
    · rename_i q' hq
      split at h
      · cases h
      · rename_i qs' hqs
        cases h
        rcases List.mem_cons.1 hp with rfl | hp'
        · exact ⟨q, List.mem_cons_self q qs, hq⟩
        · obtain ⟨r, hr, e⟩ := ih qs' hqs hp'
          exact ⟨r, List.mem_cons_of_mem q hr, e⟩

/-- When the account insert returned every submitted account, every value of the final
account lookup is a persisted account. -/
theorem accountLookup_value_persisted (ops : StoreOps) (s : Store) (data : List Row)
    (hacc : ∀ a ∈ accountsToInsert ops s data, ∃ d ∈ createdAccounts ops s data,
      d.name = a.name ∧ d.user = a.user)
    (k : String) (v : AccountRec) (h : (accountLookup ops s data).get k = some v) :
    ∃ d ∈ existingAccounts ops s data ++ createdAccounts ops s data, v = d.toRec := by
  unfold accountLookup at h
  rcases JsMap.get_foldl_set_cases (createdAccounts ops s data)
      (fun acc => accountKeyOf acc.name acc.user) (fun acc => acc.toRec) _ k v h with
    ⟨h1, hn⟩ | ⟨d, hd, _, e⟩
  · rcases (staging_inv ops s data).value k v h1 with h2 | h2
    · unfold accountLookup₀ at h2
      rcases JsMap.get_foldl_set_cases (existingAccounts ops s data)
          (fun acc => accountKeyOf acc.name acc.user) (fun acc => acc.toRec) [] k v h2 with
        ⟨h3, _⟩ | ⟨d, hd, _, e⟩
      · simp [JsMap.get_nil] at h3
      · exact ⟨d, List.mem_append_left _ hd, e.symm⟩
    · obtain ⟨a, ha, e⟩ := List.mem_map.1 h2
      obtain ⟨d, hd, e1, e2⟩ := hacc a ha
      exact absurd (by simp [← e, NewAccount.key, e1, e2]) (hn d hd)
  · exact ⟨d, List.mem_append_right _ hd, e.symm⟩

/-- The final account lookup has the key of every row whose user resolved. -/
theorem accountLookup_has_row_key (ops : StoreOps) (s : Store) (data : List Row) (row : Row)
    (hr : row ∈ data) (u : UserDoc) (hu : (userMap ops s data).get row.email = some u) :
    (accountLookup ops s data).has (accountKeyOf row.account_name u._id) = true := by
  unfold accountLookup
  rw [JsMap.has_foldl_set]
  exact Or.inl ((staging_inv ops s data).cover row hr u hu)

theorem updatePolicyAccount_account (ops : StoreOps) (s : Store) (data : List Row)
    (hacc : ∀ a ∈ accountsToInsert ops s data, ∃ d ∈ createdAccounts ops s data,
      d.name = a.name ∧ d.user = a.user)
    (q p : NewPolicy) (h : updatePolicyAccount ops s data q = .ok p) :
    ∃ d ∈ existingAccounts ops s data ++ createdAccounts ops s data, p.account = some d._id := by
  unfold updatePolicyAccount at h
  split at h
  · cases h
  · rename_i row hrow
    have hr : row ∈ data := List.mem_of_find?_eq_some hrow
    split at h
    · cases h
    · rename_i u hu
      dsimp only at h
      obtain ⟨v, hv⟩ := (JsMap.has_eq_true_iff _ _).1 (accountLookup_has_row_key ops s data row hr u hu)
      obtain ⟨d, hd, e⟩ := accountLookup_value_persisted ops s data hacc _ v hv
      rw [hv] at h
      subst e
      simp only [AccountDoc.toRec] at h
      cases h
      exact ⟨d, hd, rfl⟩

/-! ## Policy staging claims -/

/-- C1 (counterexample): on the empty store, with every insert succeeding, the two rows
of `sameNumberBatch` carry the policy number P1 and both are handed to the policy bulk
insert. -/
theorem same_number_staged_twice :
    ∃ ps, policiesToInsert StoreOps.persistAll Store.empty sameNumberBatch = .ok ps ∧
      ps.map (fun p => p.policyNumber) = [some "P1", some "P1"] :=
  ⟨_, rfl, rfl⟩

/-- C1 (as amended): the policy records handed to the policy bulk insert are, in row
order, one record per row that passes the gates of the loop (user resolved, number not
returned by the existing-policies query, category, carrier and agent resolved), rows
that repeat a policy number of the batch included; no record bears a number that the
existing-policies query returned. -/
theorem staged_policy_numbers (ops : StoreOps) (s : Store) (data : List Row)
    (ps : List NewPolicy) (h : policiesToInsert ops s data = .ok ps) :
    (stagedPolicies ops s data).map (fun p => p.policyNumber) =
        (data.filter (passesPolicyGates ops s data)).map (fun row => row.policy_number) ∧
      ps.map (fun p => p.policyNumber) =
        (data.filter (passesPolicyGates ops s data)).map (fun row => row.policy_number) ∧
      ∀ p ∈ ps, p.policyNumber ∉ existingPolicyNumbers s data := by
  have h1 : (stagedPolicies ops s data).map (fun p => p.policyNumber) =
      (data.filter (passesPolicyGates ops s data)).map (fun row => row.policy_number) := by
    unfold stagedPolicies staging
    rw [foldl_stageRow_numbers]
    rfl
  have h2 := updatePolicyAccounts_numbers ops s data _ ps h
  refine ⟨h1, h2.trans h1, ?_⟩
  intro p hp
  have hm : p.policyNumber ∈ ps.map (fun p => p.policyNumber) := List.mem_map_of_mem _ hp
  rw [h2.trans h1, List.mem_map] at hm
  obtain ⟨row, hr, e⟩ := hm
  rw [List.mem_filter] at hr
  have hg := hr.2
  unfold passesPolicyGates at hg
  simp only [Bool.and_eq_true, Bool.not_eq_true', decide_eq_false_iff_not] at hg
  rw [← e]
  exact hg.1.1.1.2

/-- C1 (witness): the amended statement at `sameNumberBatch`. -/
theorem staged_policy_numbers_witness :
    (stagedPolicies StoreOps.persistAll Store.empty sameNumberBatch).map
        (fun p => p.policyNumber) = [some "P1", some "P1"] :=
  (staged_policy_numbers StoreOps.persistAll Store.empty sameNumberBatch _ rfl).1

theorem has_accountLookup₀ (ops : StoreOps) (s : Store) (data : List Row) (k : String) :
    (accountLookup₀ ops s data).has k = true ↔ ∃ d ∈ existingAccounts ops s data, d.key = k := by
  unfold accountLookup₀
  rw [JsMap.has_foldl_set (existingAccounts ops s data)
    (fun acc => accountKeyOf acc.name acc.user) (fun acc => acc.toRec) [] k]
  simp [JsMap.has, JsMap.get_nil, AccountDoc.key]

/-! ## Account staging claims -/

/-- C8 (counterexample): on the empty store the two rows of `absentNameBatch` resolve to
the same user; the pair of the second row (name `undefined`, that user) is neither
persisted nor staged before, and yet no account is staged for it. -/
theorem absent_name_blocks_named_account :
    existingAccounts StoreOps.persistAll Store.empty absentNameBatch = [] ∧
      (userMap StoreOps.persistAll Store.empty absentNameBatch).get (some "a@x.com") =
        some ⟨"user:a@x.com", "a@x.com"⟩ ∧
      accountsToInsert StoreOps.persistAll Store.empty absentNameBatch =
        [⟨none, "user:a@x.com"⟩] ∧
      (⟨some "undefined", "user:a@x.com"⟩ : NewAccount) ∉
        accountsToInsert StoreOps.persistAll Store.empty absentNameBatch := by
  refine ⟨rfl, rfl, rfl, ?_⟩
  have h : accountsToInsert StoreOps.persistAll Store.empty absentNameBatch =
      [⟨none, "user:a@x.com"⟩] := rfl
  rw [h]
  decide

/-- C8 (as amended): `accountsToInsert` never holds two records with the same (account
name, user identifier) pair nor a pair that the existing-accounts query returned, and
the same holds for the lookup keys `name_userid`; every staged account comes from a row
whose user resolved; and every row whose user resolved and whose lookup key is neither
the key of an existing account nor the key of an earlier row with a resolved user has
its account staged (once, by the first part). -/
theorem accounts_staged_once (ops : StoreOps) (s : Store) (data : List Row) :
    (accountsToInsert ops s data).Nodup ∧
    (∀ a ∈ accountsToInsert ops s data, ∀ d ∈ existingAccounts ops s data,
      ¬ (d.name = a.name ∧ d.user = a.user)) ∧
    ((accountsToInsert ops s data).map NewAccount.key).Nodup ∧
    (∀ a ∈ accountsToInsert ops s data, ∀ d ∈ existingAccounts ops s data, d.key ≠ a.key) ∧
    (∀ a ∈ accountsToInsert ops s data, ∃ row ∈ data, ∃ u,
      (userMap ops s data).get row.email = some u ∧ a = ⟨row.account_name, u._id⟩) ∧
    ∀ pre row post u, data = pre ++ row :: post →
      (userMap ops s data).get row.email = some u →
      (∀ d ∈ existingAccounts ops s data, d.key ≠ accountKeyOf row.account_name u._id) →
      (∀ r ∈ pre, ∀ w, (userMap ops s data).get r.email = some w →
        accountKeyOf r.account_name w._id ≠ accountKeyOf row.account_name u._id) →
      (⟨row.account_name, u._id⟩ : NewAccount) ∈ accountsToInsert ops s data := by
  have inv := staging_inv ops s data
  have hfresh : ∀ a ∈ accountsToInsert ops s data, ∀ d ∈ existingAccounts ops s data,
      d.key ≠ a.key := by
    intro a ha d hd e
    have h1 := inv.fresh a ha
    rw [(has_accountLookup₀ ops s data a.key).2 ⟨d, hd, e⟩] at h1
    cases h1
  refine ⟨List.Nodup.of_map _ inv.nodup, ?_, inv.nodup, hfresh, inv.source, ?_⟩
  · rintro a ha d hd ⟨e1, e2⟩
    exact hfresh a ha d hd (by simp [AccountDoc.key, NewAccount.key, e1, e2])
  · intro pre row post u hdata hu hex hpre
    have inv1 := StagingInv.foldl ops s data [] pre ⟨[], [], accountLookup₀ ops s data⟩
      (StagingInv.init ops s data)
    rw [List.nil_append] at inv1
    have hk : (pre.foldl (stageRow ops s data) ⟨[], [], accountLookup₀ ops s data⟩).accountLookup.has
        (accountKeyOf row.account_name u._id) = false := by
      rw [← Bool.not_eq_true, inv1.has_iff]
      rintro (h | h)
      · obtain ⟨d, hd, e⟩ := (has_accountLookup₀ ops s data _).1 h
        exact hex d hd e
      · obtain ⟨a, ha, e⟩ := List.mem_map.1 h
        obtain ⟨r, hr, w, hw, rfl⟩ := inv1.source a ha
        exact hpre r hr w hw e
    obtain ⟨extra, he⟩ := foldl_stageRow_accounts_prefix ops s data post
      (stageRow ops s data (pre.foldl (stageRow ops s data) ⟨[], [], accountLookup₀ ops s data⟩) row)
    have hsplit := congrArg
      (fun l => List.foldl (stageRow ops s data) ⟨[], [], accountLookup₀ ops s data⟩ l) hdata
    simp only [List.foldl_append, List.foldl_cons] at hsplit
    unfold accountsToInsert staging
    rw [hsplit, he, (stageRow_accounts ops s data _ row).1]
    unfold stageAccountOnly
    rw [hu]
    simp only
    rw [(stageAccount_of_not_has _ row u hk).1]
    simp

/-- C8 (witness): the first row of `sameNumberBatch` has its account staged. -/
theorem accounts_staged_once_witness :
    (⟨some "A1", "user:a@x.com"⟩ : NewAccount) ∈
      accountsToInsert StoreOps.persistAll Store.empty sameNumberBatch :=
  (accounts_staged_once StoreOps.persistAll Store.empty sameNumberBatch).2.2.2.2.2 []
    (Row.ofKeys "Ann" "Auto" "Acme" "a@x.com" "A1" "P1")
    [Row.ofKeys "Ann" "Auto" "Acme" "b@x.com" "B1" "P1"] ⟨"user:a@x.com", "a@x.com"⟩ rfl rfl
    (fun _ hd => nomatch hd) (fun _ hr => nomatch hr)

/-! ## Failures of the run -/

/-- C3: on the empty store, with every insert succeeding, both rows of `sameNumberBatch`
are staged; the fix-up pass looks both policies up through the first row that carries
their number, so the policy of user `b@x.com` is handed over with the account `A1` of
user `a@x.com`, not with its own account `B1`. -/
theorem shared_number_takes_first_account :
    createdAccounts StoreOps.persistAll Store.empty sameNumberBatch =
        [⟨"account:A1_user:a@x.com", some "A1", "user:a@x.com"⟩,
          ⟨"account:B1_user:b@x.com", some "B1", "user:b@x.com"⟩] ∧
      ∃ ps, policiesToInsert StoreOps.persistAll Store.empty sameNumberBatch = .ok ps ∧
        ps.map (fun p => (p.user, p.account)) =
          [("user:a@x.com", some "account:A1_user:a@x.com"),
            ("user:b@x.com", some "account:A1_user:a@x.com")] :=
  ⟨rfl, _, rfl, rfl⟩

/-- C4: a uniqueness violation reported by the agent, category, carrier or user insert
makes the run throw, while the same violation reported by the account or the policy
insert is caught and the run returns `true`. -/
theorem early_insert_violation_is_fatal :
    insertToDatabaseOptimized { StoreOps.persistAll with insertAgents := fun _ => ⟨[], 1⟩ }
        Store.empty singleRowBatch = .error "BulkWriteError" ∧
      insertToDatabaseOptimized { StoreOps.persistAll with insertCategories := fun _ => ⟨[], 1⟩ }
        Store.empty singleRowBatch = .error "BulkWriteError" ∧
      insertToDatabaseOptimized { StoreOps.persistAll with insertCarriers := fun _ => ⟨[], 1⟩ }
        Store.empty singleRowBatch = .error "BulkWriteError" ∧
      insertToDatabaseOptimized { StoreOps.persistAll with insertUsers := fun _ => ⟨[], 1⟩ }
        Store.empty singleRowBatch = .error "BulkWriteError" ∧
      insertToDatabaseOptimized StoreOps.dropAccounts Store.empty singleRowBatch = .ok true ∧
      insertToDatabaseOptimized { StoreOps.persistAll with insertPolicies := fun _ => ⟨[], 1⟩ }
        Store.empty singleRowBatch = .ok true :=
  ⟨rfl, rfl, rfl, rfl, rfl, rfl⟩

/-- C5: on the empty store, with every query and insert succeeding, a batch whose first
row lacks the email and whose second, complete row repeats its policy number makes the
run throw: the fix-up pass reads `user._id` of the unresolved user of the first row. -/
theorem fixup_dereferences_unresolved_user :
    bulkInsertRejects StoreOps.persistAll Store.empty unresolvedFirstBatch = false ∧
      (stagedPolicies StoreOps.persistAll Store.empty unresolvedFirstBatch).map
        (fun p => (p.policyNumber, p.user)) = [(some "P1", "user:a@x.com")] ∧
      policiesToInsert StoreOps.persistAll Store.empty unresolvedFirstBatch =
        .error "TypeError" ∧
      insertToDatabaseOptimized StoreOps.persistAll Store.empty unresolvedFirstBatch =
        .error "TypeError" :=
  ⟨rfl, rfl, rfl, rfl⟩

/-! ## Skip on a missing reference -/

/-- C9: on the empty store, with the agent name of one blank stored as the empty name,
the row of `blankAgentBatch` whose agent column is empty passes the gates of the loop: the
agent created for the blank name is registered under the empty key (line 213), the
agent-less row resolves to it (line 259), and its policy P2 is staged and handed to the
policy insert, while the row that named the blank agent stages nothing. -/
theorem blank_agent_stages_agentless_row :
    uniqueAgents blankAgentBatch = [" "] ∧
      createdAgents StoreOps.trimBlankAgent Store.empty blankAgentBatch =
        [⟨"agent: ", ""⟩] ∧
      passesPolicyGates StoreOps.trimBlankAgent Store.empty blankAgentBatch
        (Row.named.withKeys "" "Auto" "Acme" "b@x.com" "B1" "P2") = true ∧
      (stagedPolicies StoreOps.trimBlankAgent Store.empty blankAgentBatch).map
        (fun p => (p.policyNumber, p.user, p.agent)) =
        [(some "P2", "user:b@x.com", "agent: ")] ∧
      ∃ ps, policiesToInsert StoreOps.trimBlankAgent Store.empty blankAgentBatch = .ok ps ∧
        ps.map (fun p => (p.policyNumber, p.agent)) = [(some "P2", "agent: ")] :=
  ⟨rfl, rfl, rfl, rfl, _, rfl, rfl⟩

/-- When the agent insert returns only documents that bear a submitted name, a row
whose agent field is empty or absent never has its policy staged: it does not pass
the gates of the loop, the loop body does for it what it does when the policy is not
considered at all, so the accumulators after the loop are those of the loop that only
stages the account of that row, and the staged policies are those of the other rows. -/
theorem agentless_row_stages_no_policy (ops : StoreOps) (s : Store) (data pre post : List Row)
    (row : Row) (hdata : data = pre ++ row :: post) (hagent : truthy row.agent = false)
    (hsub : ∀ d ∈ createdAgents ops s data,
      d.name ∈ (newAgents s data).map (fun a => a.name)) :
    passesPolicyGates ops s data row = false ∧
    (∀ st, stageRow ops s data st row = stageAccountOnly ops s data st row) ∧
    staging ops s data =
      post.foldl (stageRow ops s data)
        (stageAccountOnly ops s data
          (pre.foldl (stageRow ops s data) ⟨[], [], accountLookup₀ ops s data⟩) row) ∧
    (stagedPolicies ops s data).map (fun p => p.policyNumber) =
      ((pre ++ post).filter (passesPolicyGates ops s data)).map
        (fun r => r.policy_number) := by
  have hget : (agentMap ops s data).get row.agent = none := by
    rw [← JsMap.has_eq_false_iff, ← Bool.not_eq_true]
    intro h
    rw [agentMap_key_truthy ops s data hsub _ h] at hagent
    cases hagent
  have hgate : passesPolicyGates ops s data row = false := by
    unfold passesPolicyGates
    rw [(JsMap.has_eq_false_iff _ _).2 hget]
    simp
  have hstep : ∀ st, stageRow ops s data st row = stageAccountOnly ops s data st row := by
    intro st
    unfold stageRow stageAccountOnly
    cases (userMap ops s data).get row.email with
    | none => rfl
    | some user => exact stagePolicy_of_no_agent ops s data _ row user hget
  have hsplit := congrArg
    (fun l => List.foldl (stageRow ops s data) ⟨[], [], accountLookup₀ ops s data⟩ l) hdata
  simp only [List.foldl_append, List.foldl_cons] at hsplit
  refine ⟨hgate, hstep, ?_, ?_⟩
  · unfold staging
    rw [hsplit, hstep]
  · have hn := (foldl_stageRow_numbers ops s data data ⟨[], [], accountLookup₀ ops s data⟩)
    have hf := congrArg (fun l => (List.filter (passesPolicyGates ops s data) l).map
      (fun r => r.policy_number)) hdata
    simp only [List.filter_append, List.filter_cons, hgate] at hf
    unfold stagedPolicies staging
    rw [hn, hf]
    simp

/-- The staged policies of `agentlessBatch`, whose first row has no agent, on the store
driver that persists every record as submitted. -/
theorem agentless_row_stages_no_policy_witness :
    (stagedPolicies StoreOps.persistAll Store.empty agentlessBatch).map
      (fun p => p.policyNumber) = [some "P2"] :=
  (agentless_row_stages_no_policy StoreOps.persistAll Store.empty agentlessBatch []
    [Row.ofKeys "Ann" "Auto" "Acme" "b@x.com" "B1" "P2"]
    (Row.ofKeys "" "Auto" "Acme" "a@x.com" "A1" "P1") rfl rfl (by decide)).2.2.2

/-! ## Referential completeness -/

/-- C2 (counterexample): on the empty store, when the account insert drops the staged
account of the single row (a uniqueness violation, caught), the policy of that row is
handed to the policy bulk insert with an undefined account reference. -/
theorem dropped_account_leaves_reference_undefined :
    accountsToInsert StoreOps.dropAccounts Store.empty singleRowBatch =
        [⟨some "A1", "user:a@x.com"⟩] ∧
      createdAccounts StoreOps.dropAccounts Store.empty singleRowBatch = [] ∧
      ∃ ps, policiesToInsert StoreOps.dropAccounts Store.empty singleRowBatch = .ok ps ∧
        ps.map (fun p => (p.policyNumber, p.account)) = [(some "P1", none)] :=
  ⟨rfl, rfl, _, rfl, rfl⟩

/-- C2 (as amended): every policy record handed to the policy bulk insert carries the
identifier of a category, a carrier, a user and an agent that the existence queries
returned or the inserts created; when the account insert returned every submitted
account, it also carries the identifier of an account that the existing-accounts query
returned or the account insert created. -/
theorem handed_policies_references (ops : StoreOps) (s : Store) (data : List Row)
    (ps : List NewPolicy) (h : policiesToInsert ops s data = .ok ps) :
    (∀ p ∈ ps,
      (∃ c ∈ existingCategories s data ++ createdCategories ops s data,
        p.policyCategory = c._id) ∧
      (∃ c ∈ existingCarriers s data ++ createdCarriers ops s data, p.company = c._id) ∧
      (∃ u ∈ existingUsers s data ++ createdUsers ops s data, p.user = u._id) ∧
      (∃ a ∈ existingAgents s data ++ createdAgents ops s data, p.agent = a._id)) ∧
    ((∀ a ∈ accountsToInsert ops s data, ∃ d ∈ createdAccounts ops s data,
        d.name = a.name ∧ d.user = a.user) →
      ∀ p ∈ ps, ∃ d ∈ existingAccounts ops s data ++ createdAccounts ops s data,
        p.account = some d._id) := by
  constructor
  · intro p hp
    obtain ⟨q, hq, hqp⟩ := updatePolicyAccounts_mem ops s data _ ps h p hp
    have hf := updatePolicyAccount_fields ops s data q p hqp
    obtain ⟨row, _, u, c, k, a, hu, hc, hk, ha, e1, e2, e3, e4, _⟩ :=
      staged_policy_source ops s data q hq
    rw [hf]
    simp only
    rw [e1, e2, e3, e4]
    exact ⟨⟨c, (JsMap.get_merged_mem (existingCategories s data) (createdCategories ops s data)
        (fun c : CategoryDoc => some c.category_name) _ c hc).1, rfl⟩,
      ⟨k, (JsMap.get_merged_mem (existingCarriers s data) (createdCarriers ops s data)
        (fun c : CarrierDoc => some c.company_name) _ k hk).1, rfl⟩,
      ⟨u, (JsMap.get_merged_mem (existingUsers s data) (createdUsers ops s data)
        (fun u : UserDoc => some u.email) _ u hu).1, rfl⟩,
      ⟨a, (JsMap.get_merged_mem (existingAgents s data) (createdAgents ops s data)
        (fun a : AgentDoc => some a.name) _ a ha).1, rfl⟩⟩
  · intro hacc p hp
    obtain ⟨q, _, hqp⟩ := updatePolicyAccounts_mem ops s data _ ps h p hp
    exact updatePolicyAccount_account ops s data hacc q p hqp

/-- C2 (witness): on the empty store, with every insert succeeding, the policy of the
single row is handed over with the identifier of the created account. -/
theorem handed_policies_references_witness :
    ∃ ps, policiesToInsert StoreOps.persistAll Store.empty singleRowBatch = .ok ps ∧
      ∀ p ∈ ps, ∃ d ∈ existingAccounts StoreOps.persistAll Store.empty singleRowBatch ++
          createdAccounts StoreOps.persistAll Store.empty singleRowBatch,
        p.account = some d._id :=
  ⟨_, rfl, (handed_policies_references StoreOps.persistAll Store.empty singleRowBatch _ rfl).2
    (by decide)⟩

/-! ## The second run -/

/-- The lookup built from a collection grown by created documents is the lookup built
from the collection, merged with the created documents. -/
theorem JsMap.ofEntries_append_created {K α : Type} [DecidableEq K] (coll created : List α)
    (key : α → K) (sel : α → Bool) (h : ∀ d ∈ created, sel d = true) :
    JsMap.ofEntries (((coll ++ created).filter sel).map (fun a => (key a, a))) =
      created.foldl (fun m a => JsMap.set m (key a) a)
        (JsMap.ofEntries ((coll.filter sel).map (fun a => (key a, a)))) := by
  have hc : created.filter sel = created := List.filter_eq_self.2 h
  unfold JsMap.ofEntries
  rw [List.filter_append, hc, List.map_append, List.foldl_append, List.foldl_map]

theorem insertIfAny_ok {α β : Type} (docs : List α) (insert : List α → InsertReply β)
    (h : (insert docs).writeErrors = 0) :
    insertIfAny docs insert = .ok (if docs.length > 0 then (insert docs).insertedDocs else []) := by
  unfold insertIfAny insertMany
  by_cases hl : docs.length > 0
  · simp [hl, h]
  · simp [hl]

theorem persistedBy_insertIfAny_map {α β γ : Type} (docs : List α)
    (insert : List α → InsertReply β) (f : β → γ) (g : α → γ)
    (h : (insert docs).insertedDocs.map f = docs.map g) :
    (persistedBy (insertIfAny docs insert)).map f = docs.map g := by
  unfold insertIfAny insertMany
  cases docs with
  | nil => rfl
  | cons d docs =>
    by_cases he : (insert (d :: docs)).writeErrors > 0
    · simpa [he, persistedBy] using h
    · simpa [he, persistedBy] using h


/-- After the created documents are merged, the lookup has every key of the batch: a key
the lookup lacked was submitted, and created as submitted. -/
theorem JsMap.has_merged_of_created {α : Type} (unique : List String) (created : List α)
    (key : α → String) (m : JsMap (Option String) α)
    (h : created.map key = unique.filter (fun k => !m.has (some k)))
    (k : String) (hk : k ∈ unique) :
    JsMap.has (created.foldl (fun m a => JsMap.set m (some (key a)) a) m) (some k) = true := by
  rw [JsMap.has_foldl_set created (fun a => some (key a)) (fun a => a) m (some k)]
  cases hm : m.has (some k) with
  | true => exact Or.inl rfl
  | false =>
    right
    have : k ∈ created.map key := by
      rw [h, List.mem_filter]
      exact ⟨hk, by simp [hm]⟩
    obtain ⟨d, hd, e⟩ := List.mem_map.1 this
    exact ⟨d, hd, by rw [e]⟩

theorem storeAfter_agents (ops : StoreOps) (s : Store) (data : List Row) :
    (storeAfter ops s data).agents = s.agents ++ createdAgents ops s data ∧
      (storeAfter ops s data).categories = s.categories ++ createdCategories ops s data ∧
      (storeAfter ops s data).carriers = s.carriers ++ createdCarriers ops s data ∧
      (storeAfter ops s data).users = s.users ++ createdUsers ops s data := by
  unfold storeAfter storeAfterBulkInsert
  split <;> exact ⟨rfl, rfl, rfl, rfl⟩

theorem bulkInsertRejects_of_persists (ops : StoreOps) (s : Store) (data : List Row)
    (h : PersistsAsSubmitted ops s data) : bulkInsertRejects ops s data = false := by
  obtain ⟨⟨h1, _⟩, ⟨h2, _⟩, ⟨h3, _⟩, ⟨h4, _⟩, _⟩ := h
  unfold bulkInsertRejects
  rw [insertIfAny_ok _ _ h1, insertIfAny_ok _ _ h2, insertIfAny_ok _ _ h3, insertIfAny_ok _ _ h4]

theorem storeAfter_accounts (ops : StoreOps) (s : Store) (data : List Row)
    (h : PersistsAsSubmitted ops s data) :
    (storeAfter ops s data).accounts = s.accounts ++ createdAccounts ops s data ∧
      (storeAfter ops s data).policies = s.policies ++ createdPolicies ops s data := by
  unfold storeAfter
  rw [bulkInsertRejects_of_persists ops s data h]
  exact ⟨rfl, rfl⟩

theorem createdAgents_names (ops : StoreOps) (s : Store) (data : List Row)
    (h : PersistsAsSubmitted ops s data) :
    (createdAgents ops s data).map (fun d => d.name) =
      (uniqueAgents data).filter (fun k => !(agentMap₀ s data).has (some k)) := by
  rw [← newAgents_names]
  exact persistedBy_insertIfAny_map _ _ _ _ h.1.2

theorem agentMap₀_storeAfter (ops : StoreOps) (s : Store) (data : List Row)
    (h : PersistsAsSubmitted ops s data) :
    agentMap₀ (storeAfter ops s data) data = agentMap ops s data := by
  unfold agentMap₀ agentMap existingAgents
  rw [(storeAfter_agents ops s data).1]
  apply JsMap.ofEntries_append_created _ _ (fun a : AgentDoc => some a.name)
  intro d hd
  have hm : d.name ∈ (createdAgents ops s data).map (fun d => d.name) :=
    List.mem_map_of_mem _ hd
  rw [createdAgents_names ops s data h, List.mem_filter] at hm
  simpa using hm.1

theorem newAgents_storeAfter (ops : StoreOps) (s : Store) (data : List Row)
    (h : PersistsAsSubmitted ops s data) : newAgents (storeAfter ops s data) data = [] := by
  have hn := newAgents_names (storeAfter ops s data) data
  rw [agentMap₀_storeAfter ops s data h] at hn
  have hall : (uniqueAgents data).filter (fun k => !(agentMap ops s data).has (some k)) = [] := by
    rw [List.filter_eq_nil_iff]
    intro k hk
    have := JsMap.has_merged_of_created (uniqueAgents data) (createdAgents ops s data)
      (fun d => d.name) (agentMap₀ s data) (createdAgents_names ops s data h) k hk
    unfold agentMap
    simp [this]
  rw [hall] at hn
  exact List.map_eq_nil_iff.1 hn

theorem agentMap_storeAfter (ops ops' : StoreOps) (s : Store) (data : List Row)
    (h : PersistsAsSubmitted ops s data) :
    agentMap ops' (storeAfter ops s data) data = agentMap ops s data := by
  have hc : createdAgents ops' (storeAfter ops s data) data = [] := by
    unfold createdAgents
    rw [newAgents_storeAfter ops s data h]
    rfl
  rw [← agentMap₀_storeAfter ops s data h]
  conv_lhs => unfold agentMap
  rw [hc]
  rfl

theorem createdCategories_names (ops : StoreOps) (s : Store) (data : List Row)
    (h : PersistsAsSubmitted ops s data) :
    (createdCategories ops s data).map (fun d => d.category_name) =
      (uniqueCategories data).filter (fun k => !(categoryMap₀ s data).has (some k)) := by
  rw [← newCategories_names]
  exact persistedBy_insertIfAny_map _ _ _ _ h.2.1.2

theorem categoryMap₀_storeAfter (ops : StoreOps) (s : Store) (data : List Row)
    (h : PersistsAsSubmitted ops s data) :
    categoryMap₀ (storeAfter ops s data) data = categoryMap ops s data := by
  unfold categoryMap₀ categoryMap existingCategories
  rw [(storeAfter_agents ops s data).2.1]
  apply JsMap.ofEntries_append_created _ _ (fun a : CategoryDoc => some a.category_name)
  intro d hd
  have hm : d.category_name ∈ (createdCategories ops s data).map (fun d => d.category_name) :=
    List.mem_map_of_mem _ hd
  rw [createdCategories_names ops s data h, List.mem_filter] at hm
  simpa using hm.1

theorem newCategories_storeAfter (ops : StoreOps) (s : Store) (data : List Row)
    (h : PersistsAsSubmitted ops s data) : newCategories (storeAfter ops s data) data = [] := by
  have hn := newCategories_names (storeAfter ops s data) data
  rw [categoryMap₀_storeAfter ops s data h] at hn
  have hall : (uniqueCategories data).filter (fun k => !(categoryMap ops s data).has (some k)) = [] := by
    rw [List.filter_eq_nil_iff]
    intro k hk
    have := JsMap.has_merged_of_created (uniqueCategories data) (createdCategories ops s data)
      (fun d => d.category_name) (categoryMap₀ s data) (createdCategories_names ops s data h) k hk
    unfold categoryMap
    simp [this]
  rw [hall] at hn
  exact List.map_eq_nil_iff.1 hn

theorem categoryMap_storeAfter (ops ops' : StoreOps) (s : Store) (data : List Row)
    (h : PersistsAsSubmitted ops s data) :
    categoryMap ops' (storeAfter ops s data) data = categoryMap ops s data := by
  have hc : createdCategories ops' (storeAfter ops s data) data = [] := by
    unfold createdCategories
    rw [newCategories_storeAfter ops s data h]
    rfl
  rw [← categoryMap₀_storeAfter ops s data h]
  conv_lhs => unfold categoryMap
  rw [hc]
  rfl

theorem createdCarriers_names (ops : StoreOps) (s : Store) (data : List Row)
    (h : PersistsAsSubmitted ops s data) :
    (createdCarriers ops s data).map (fun d => d.company_name) =
      (uniqueCarriers data).filter (fun k => !(carrierMap₀ s data).has (some k)) := by
  rw [← newCarriers_names]
  exact persistedBy_insertIfAny_map _ _ _ _ h.2.2.1.2

theorem carrierMap₀_storeAfter (ops : StoreOps) (s : Store) (data : List Row)
    (h : PersistsAsSubmitted ops s data) :
    carrierMap₀ (storeAfter ops s data) data = carrierMap ops s data := by
  unfold carrierMap₀ carrierMap existingCarriers
  rw [(storeAfter_agents ops s data).2.2.1]
  apply JsMap.ofEntries_append_created _ _ (fun a : CarrierDoc => some a.company_name)
  intro d hd
  have hm : d.company_name ∈ (createdCarriers ops s data).map (fun d => d.company_name) :=
    List.mem_map_of_mem _ hd
  rw [createdCarriers_names ops s data h, List.mem_filter] at hm
  simpa using hm.1

theorem newCarriers_storeAfter (ops : StoreOps) (s : Store) (data : List Row)
    (h : PersistsAsSubmitted ops s data) : newCarriers (storeAfter ops s data) data = [] := by
  have hn := newCarriers_names (storeAfter ops s data) data
  rw [carrierMap₀_storeAfter ops s data h] at hn
  have hall : (uniqueCarriers data).filter (fun k => !(carrierMap ops s data).has (some k)) = [] := by
    rw [List.filter_eq_nil_iff]
    intro k hk
    have := JsMap.has_merged_of_created (uniqueCarriers data) (createdCarriers ops s data)
      (fun d => d.company_name) (carrierMap₀ s data) (createdCarriers_names ops s data h) k hk
    unfold carrierMap
    simp [this]
  rw [hall] at hn
  exact List.map_eq_nil_iff.1 hn

theorem carrierMap_storeAfter (ops ops' : StoreOps) (s : Store) (data : List Row)
    (h : PersistsAsSubmitted ops s data) :
    carrierMap ops' (storeAfter ops s data) data = carrierMap ops s data := by
  have hc : createdCarriers ops' (storeAfter ops s data) data = [] := by
    unfold createdCarriers
    rw [newCarriers_storeAfter ops s data h]
    rfl
  rw [← carrierMap₀_storeAfter ops s data h]
  conv_lhs => unfold carrierMap
  rw [hc]
  rfl


theorem createdUsers_emails (ops : StoreOps) (s : Store) (data : List Row)
    (h : PersistsAsSubmitted ops s data) :
    (createdUsers ops s data).map (fun d => d.email) =
      (uniqueEmails data).filter (fun k => !(userMap₀ s data).has (some k)) := by
  have h1 : (createdUsers ops s data).map (fun d => some d.email) =
      (newUsers s data).map (fun u => u.email) :=
    persistedBy_insertIfAny_map _ _ _ _ h.2.2.2.1.2
  rw [newUsers_emails] at h1
  apply List.map_injective_iff.2 (Option.some_injective String)
  rw [← h1, List.map_map]
  rfl

theorem userMap₀_storeAfter (ops : StoreOps) (s : Store) (data : List Row)
    (h : PersistsAsSubmitted ops s data) :
    userMap₀ (storeAfter ops s data) data = userMap ops s data := by
  unfold userMap₀ userMap existingUsers
  rw [(storeAfter_agents ops s data).2.2.2]
  apply JsMap.ofEntries_append_created _ _ (fun a : UserDoc => some a.email)
  intro d hd
  have hm : d.email ∈ (createdUsers ops s data).map (fun d => d.email) :=
    List.mem_map_of_mem _ hd
  rw [createdUsers_emails ops s data h, List.mem_filter] at hm
  simpa using hm.1

theorem newUsers_storeAfter (ops : StoreOps) (s : Store) (data : List Row)
    (h : PersistsAsSubmitted ops s data) : newUsers (storeAfter ops s data) data = [] := by
  have hn := newUsers_emails (storeAfter ops s data) data
  rw [userMap₀_storeAfter ops s data h] at hn
  have hall : (uniqueEmails data).filter (fun k => !(userMap ops s data).has (some k)) = [] := by
    rw [List.filter_eq_nil_iff]
    intro k hk
    have := JsMap.has_merged_of_created (uniqueEmails data) (createdUsers ops s data)
      (fun d => d.email) (userMap₀ s data) (createdUsers_emails ops s data h) k hk
    unfold userMap
    simp [this]
  rw [hall] at hn
  exact List.map_eq_nil_iff.1 hn

theorem userMap_storeAfter (ops ops' : StoreOps) (s : Store) (data : List Row)
    (h : PersistsAsSubmitted ops s data) :
    userMap ops' (storeAfter ops s data) data = userMap ops s data := by
  have hc : createdUsers ops' (storeAfter ops s data) data = [] := by
    unfold createdUsers
    rw [newUsers_storeAfter ops s data h]
    rfl
  rw [← userMap₀_storeAfter ops s data h]
  conv_lhs => unfold userMap
  rw [hc]
  rfl

/-- A row whose account key the lookup already holds stages no account. -/
theorem foldl_stageRow_no_account (ops : StoreOps) (s : Store) (data rows : List Row)
    (st : Staging)
    (h : ∀ row ∈ rows, ∀ u, (userMap ops s data).get row.email = some u →
      st.accountLookup.has (accountKeyOf row.account_name u._id) = true) :
    (rows.foldl (stageRow ops s data) st).accountsToInsert = st.accountsToInsert := by
  induction rows generalizing st with
  | nil => rfl
  | cons row rows ih =>
    have hstep : (stageRow ops s data st row).accountsToInsert = st.accountsToInsert ∧
        (stageRow ops s data st row).accountLookup = st.accountLookup := by
      rw [(stageRow_accounts ops s data st row).1, (stageRow_accounts ops s data st row).2]
      unfold stageAccountOnly
      cases hu : (userMap ops s data).get row.email with
      | none => exact ⟨rfl, rfl⟩
      | some u =>
        simp only
        rw [stageAccount_of_has st row u (h row (List.mem_cons_self row rows) u hu)]
        exact ⟨rfl, rfl⟩
    rw [List.foldl_cons, ih, hstep.1]
    intro r hr u hu
    rw [hstep.2]
    exact h r (List.mem_cons_of_mem row hr) u hu

theorem createdAccounts_pairs (ops : StoreOps) (s : Store) (data : List Row)
    (h : PersistsAsSubmitted ops s data) :
    (createdAccounts ops s data).map (fun d => (d.name, d.user)) =
      (accountsToInsert ops s data).map (fun a => (a.name, a.user)) := by
  have h5 := h.2.2.2.2
  unfold createdAccounts insertIfAny insertMany
  cases hl : accountsToInsert ops s data with
  | nil => rfl
  | cons a l =>
    rw [hl] at h5
    by_cases he : (ops.insertAccounts (a :: l)).writeErrors > 0
    · simpa [he] using h5
    · simpa [he] using h5

/-- In the second run the seeded account lookup already has the key of every row whose
user resolved. -/
theorem accountLookup₀_storeAfter_has (ops ops' : StoreOps) (s : Store) (data : List Row)
    (h : PersistsAsSubmitted ops s data) (row : Row) (hr : row ∈ data) (u : UserDoc)
    (hu : (userMap ops s data).get row.email = some u) :
    (accountLookup₀ ops' (storeAfter ops s data) data).has
      (accountKeyOf row.account_name u._id) = true := by
  have hids : userIds ops' (storeAfter ops s data) data = userIds ops s data := by
    unfold userIds
    rw [userMap_storeAfter ops ops' s data h]
  have hex : ∀ d, d ∈ existingAccounts ops' (storeAfter ops s data) data ↔
      (d ∈ s.accounts ∨ d ∈ createdAccounts ops s data) ∧ d.user ∈ userIds ops s data := by
    intro d
    unfold existingAccounts
    rw [hids, (storeAfter_accounts ops s data h).1, List.mem_filter, List.mem_append]
    simp
  have hid : ∀ w, ∀ r, (userMap ops s data).get r = some w → w._id ∈ userIds ops s data :=
    fun w r hw => List.mem_map_of_mem _ (JsMap.mem_values_of_get _ r w hw)
  rw [has_accountLookup₀]
  have inv := staging_inv ops s data
  rcases (inv.has_iff _).1 (inv.cover row hr u hu) with h1 | h1
  · obtain ⟨d, hd, e⟩ := (has_accountLookup₀ ops s data _).1 h1
    unfold existingAccounts at hd
    rw [List.mem_filter] at hd
    exact ⟨d, (hex d).2 ⟨Or.inl hd.1, by simpa using hd.2⟩, e⟩
  · obtain ⟨a, ha, e⟩ := List.mem_map.1 h1
    have hp : (a.name, a.user) ∈ (createdAccounts ops s data).map (fun d => (d.name, d.user)) := by
      rw [createdAccounts_pairs ops s data h]
      exact List.mem_map_of_mem (fun a : NewAccount => (a.name, a.user)) ha
    obtain ⟨d, hd, e2⟩ := List.mem_map.1 hp
    simp only [Prod.mk.injEq] at e2
    obtain ⟨r, _, w, hw, rfl⟩ := inv.source a ha
    refine ⟨d, (hex d).2 ⟨Or.inr hd, ?_⟩, ?_⟩
    · rw [e2.2]
      exact hid w _ hw
    · rw [← e]
      simp [AccountDoc.key, NewAccount.key, e2.1, e2.2]

theorem accountsToInsert_storeAfter (ops ops' : StoreOps) (s : Store) (data : List Row)
    (h : PersistsAsSubmitted ops s data) :
    accountsToInsert ops' (storeAfter ops s data) data = [] := by
  unfold accountsToInsert staging
  rw [foldl_stageRow_no_account]
  intro row hr u hu
  rw [userMap_storeAfter ops ops' s data h] at hu
  exact accountLookup₀_storeAfter_has ops ops' s data h row hr u hu


theorem mem_existingPolicyNumbers (s : Store) (data : List Row) (n : Option String) :
    n ∈ existingPolicyNumbers s data ↔
      ∃ d ∈ s.policies, d.policyNumber = n ∧ ∃ v ∈ policyNumbers data, n = some v := by
  unfold existingPolicyNumbers existingPolicies
  rw [mem_jsSet, List.mem_map]
  constructor
  · rintro ⟨d, hd, rfl⟩
    rw [List.mem_filter] at hd
    obtain ⟨v, hv, e⟩ := List.mem_map.1 (of_decide_eq_true hd.2)
    exact ⟨d, hd.1, rfl, v, hv, e.symm⟩
  · rintro ⟨d, hd, rfl, v, hv, e⟩
    refine ⟨d, ?_, rfl⟩
    rw [List.mem_filter]
    exact ⟨hd, decide_eq_true (List.mem_map.2 ⟨v, hv, e.symm⟩)⟩

/-- The loop stages no policy under a number that the existing-policies query returned. -/
theorem staged_number_not_existing (ops : StoreOps) (s : Store) (data : List Row)
    (p : NewPolicy) (hp : p ∈ stagedPolicies ops s data) :
    p.policyNumber ∉ existingPolicyNumbers s data := by
  have hm : p.policyNumber ∈ (stagedPolicies ops s data).map (fun p => p.policyNumber) :=
    List.mem_map_of_mem _ hp
  unfold stagedPolicies staging at hm
  rw [foldl_stageRow_numbers, List.map_nil, List.nil_append, List.mem_map] at hm
  obtain ⟨row, hr, e⟩ := hm
  rw [List.mem_filter] at hr
  have hg := hr.2
  unfold passesPolicyGates at hg
  simp only [Bool.and_eq_true, Bool.not_eq_true', decide_eq_false_iff_not] at hg
  rw [← e]
  exact hg.1.1.1.2

theorem mem_policyNumbers_of_truthy (data : List Row) (row : Row) (hr : row ∈ data)
    (h : truthy row.policy_number = true) :
    ∃ v ∈ policyNumbers data, row.policy_number = some v := by
  cases hn : row.policy_number with
  | none =>
    rw [hn] at h
    cases h
  | some v =>
    rw [hn] at h
    refine ⟨v, ?_, rfl⟩
    unfold policyNumbers
    rw [mem_filterBoolean]
    exact ⟨by simpa [truthy] using h, List.mem_map.2 ⟨row, hr, hn⟩⟩

/-- A persisted policy with a non-empty number that the batch carries is not staged. -/
theorem staged_number_not_persisted (ops : StoreOps) (s : Store) (data : List Row)
    (p : NewPolicy) (hp : p ∈ stagedPolicies ops s data) (d : PolicyDoc) (hd : d ∈ s.policies)
    (ht : truthy d.policyNumber = true) : p.policyNumber ≠ d.policyNumber := by
  intro e
  obtain ⟨row, hr, hs⟩ := staged_policy_source ops s data p hp
  obtain ⟨_, _, _, _, _, _, _, _, _, _, _, _, hn⟩ := hs
  have ht2 : truthy row.policy_number = true := by rw [← hn, e, ht]
  obtain ⟨v, hv, ev⟩ := mem_policyNumbers_of_truthy data row hr ht2
  apply staged_number_not_existing ops s data p hp
  rw [mem_existingPolicyNumbers]
  exact ⟨d, hd, e.symm, v, hv, by rw [hn, ev]⟩

theorem passesPolicyGates_of_source (ops : StoreOps) (s : Store) (data : List Row) (row : Row)
    (q : NewPolicy) (h : PolicySource ops s data row q)
    (hn : row.policy_number ∉ existingPolicyNumbers s data) :
    passesPolicyGates ops s data row = true := by
  obtain ⟨u, c, k, a, hu, hc, hk, ha, _⟩ := h
  unfold passesPolicyGates JsMap.has
  simp [hu, hc, hk, ha, hn]

/-- After a successful first run whose policy insert persisted every submitted policy
that bears a number, the second run stages only policies with an empty or absent number. -/
theorem stagedPolicies_storeAfter (ops ops' : StoreOps) (s : Store) (data : List Row)
    (h : PersistsAsSubmitted ops s data)
    (hpol : ∀ ps, policiesToInsert ops s data = .ok ps → ∀ q ∈ ps,
      truthy q.policyNumber = true →
        q.policyNumber ∈ (createdPolicies ops s data).map (fun d => d.policyNumber))
    (hrun : insertToDatabaseOptimized ops s data = .ok true)
    (p : NewPolicy) (hp : p ∈ stagedPolicies ops' (storeAfter ops s data) data) :
    truthy p.policyNumber = false := by
  cases ht : truthy p.policyNumber with
  | false => rfl
  | true =>
    exfalso
    have hpol' := (storeAfter_accounts ops s data h).2
    obtain ⟨ps, hps⟩ : ∃ ps, policiesToInsert ops s data = .ok ps := by
      unfold insertToDatabaseOptimized at hrun
      rw [bulkInsertRejects_of_persists ops s data h] at hrun
      cases hq : policiesToInsert ops s data with
      | error e =>
        rw [hq] at hrun
        cases hrun
      | ok ps => exact ⟨ps, rfl⟩
    obtain ⟨row, hr, hs⟩ := staged_policy_source ops' (storeAfter ops s data) data p hp
    have hn : p.policyNumber = row.policy_number := by
      obtain ⟨_, _, _, _, _, _, _, _, _, _, _, _, hn⟩ := hs
      exact hn
    have hs1 : PolicySource ops s data row p := by
      unfold PolicySource at hs ⊢
      rw [userMap_storeAfter ops ops' s data h, categoryMap_storeAfter ops ops' s data h,
        carrierMap_storeAfter ops ops' s data h, agentMap_storeAfter ops ops' s data h] at hs
      exact hs
    by_cases hex : row.policy_number ∈ existingPolicyNumbers s data
    · obtain ⟨d, hd, e, _⟩ := (mem_existingPolicyNumbers s data _).1 hex
      refine staged_number_not_persisted ops' (storeAfter ops s data) data p hp d ?_ ?_ ?_
      · rw [hpol']
        exact List.mem_append_left _ hd
      · rw [e, ← hn, ht]
      · rw [e, hn]
    · have hg := passesPolicyGates_of_source ops s data row p hs1 hex
      have hm : row.policy_number ∈ ps.map (fun q => q.policyNumber) := by
        rw [updatePolicyAccounts_numbers ops s data _ ps hps]
        unfold stagedPolicies staging
        rw [foldl_stageRow_numbers, List.map_nil, List.nil_append]
        exact List.mem_map.2 ⟨row, List.mem_filter.2 ⟨hr, hg⟩, rfl⟩
      obtain ⟨q, hq, eq⟩ := List.mem_map.1 hm
      have hc := hpol ps hps q hq (by rw [eq, ← hn, ht])
      obtain ⟨d, hd, e⟩ := List.mem_map.1 hc
      refine staged_number_not_persisted ops' (storeAfter ops s data) data p hp d ?_ ?_ ?_
      · rw [hpol']
        exact List.mem_append_right _ hd
      · rw [e, eq, ← hn, ht]
      · rw [e, eq, hn]

/-! ## Idempotence -/

/-- C10: when the inserts of the first run persist every staged agent, category, carrier,
user and account exactly as submitted, and its policy insert persists no policy without
a number (`policyNumber` is `required` in `PolicyInfoSchema`), the second run on the same
batch against the store the first run left has empty to-create lists for agents,
categories, carriers and users and an empty `accountsToInsert`, and no policy the first
run persisted is staged, nor handed to the policy insert, again. When moreover the first
run returned `true` and persisted every submitted policy that bears a number, the second
run stages only the policies without a number, which the store never persists. -/
theorem second_run_stages_nothing (ops ops' : StoreOps) (s : Store) (data : List Row)
    (h : PersistsAsSubmitted ops s data)
    (hreq : ∀ d ∈ createdPolicies ops s data, truthy d.policyNumber = true) :
    newAgents (storeAfter ops s data) data = [] ∧
    newCategories (storeAfter ops s data) data = [] ∧
    newCarriers (storeAfter ops s data) data = [] ∧
    newUsers (storeAfter ops s data) data = [] ∧
    accountsToInsert ops' (storeAfter ops s data) data = [] ∧
    (∀ p ∈ stagedPolicies ops' (storeAfter ops s data) data,
      ∀ d ∈ createdPolicies ops s data, p.policyNumber ≠ d.policyNumber) ∧
    (∀ ps, policiesToInsert ops' (storeAfter ops s data) data = .ok ps →
      ∀ p ∈ ps, ∀ d ∈ createdPolicies ops s data, p.policyNumber ≠ d.policyNumber) ∧
    ((∀ ps, policiesToInsert ops s data = .ok ps → ∀ q ∈ ps,
        truthy q.policyNumber = true →
          q.policyNumber ∈ (createdPolicies ops s data).map (fun d => d.policyNumber)) →
      insertToDatabaseOptimized ops s data = .ok true →
      ∀ p ∈ stagedPolicies ops' (storeAfter ops s data) data,
        truthy p.policyNumber = false) := by
  have hst : ∀ p ∈ stagedPolicies ops' (storeAfter ops s data) data,
      ∀ d ∈ createdPolicies ops s data, p.policyNumber ≠ d.policyNumber := by
    intro p hp d hd
    refine staged_number_not_persisted ops' (storeAfter ops s data) data p hp d ?_ (hreq d hd)
    rw [(storeAfter_accounts ops s data h).2]
    exact List.mem_append_right _ hd
  refine ⟨newAgents_storeAfter ops s data h, newCategories_storeAfter ops s data h,
    newCarriers_storeAfter ops s data h, newUsers_storeAfter ops s data h,
    accountsToInsert_storeAfter ops ops' s data h, hst, ?_,
    fun hpol hrun p hp => stagedPolicies_storeAfter ops ops' s data h hpol hrun p hp⟩
  intro ps hps p hp d hd
  obtain ⟨q, hq, hqp⟩ := updatePolicyAccounts_mem ops' (storeAfter ops s data) data _ ps hps p hp
  have hf := updatePolicyAccount_fields ops' (storeAfter ops s data) data q p hqp
  have hn : p.policyNumber = q.policyNumber := by rw [hf]
  rw [hn]
  exact hst q hq d hd

/-- C10 (witness): on the empty store, with the driver that persists every record, the
first run on the three-row scenario persists the policies P1, P2 and P3, and the second
run stages no account. -/
theorem second_run_stages_nothing_witness :
    (createdPolicies StoreOps.persistAll Store.empty namedScenarioBatch).map
        (fun d => d.policyNumber) = [some "P1", some "P2", some "P3"] ∧
      accountsToInsert StoreOps.persistAll
        (storeAfter StoreOps.persistAll Store.empty namedScenarioBatch) namedScenarioBatch =
        [] :=
  ⟨rfl, (second_run_stages_nothing StoreOps.persistAll StoreOps.persistAll Store.empty
    namedScenarioBatch ⟨⟨rfl, rfl⟩, ⟨rfl, rfl⟩, ⟨rfl, rfl⟩, ⟨rfl, rfl⟩, rfl⟩
    (by decide)).2.2.2.2.1⟩

/-! ## The three-row scenario -/

/-- When the inserts persist every record as submitted, the merged lookups hold every
non-empty key of the batch. -/
theorem lookups_hold_batch_keys (ops : StoreOps) (s : Store) (data : List Row)
    (h : PersistsAsSubmitted ops s data) (row : Row) (hr : row ∈ data) :
    (truthy row.agent = true → (agentMap ops s data).has row.agent = true) ∧
    (truthy row.category_name = true →
      (categoryMap ops s data).has row.category_name = true) ∧
    (truthy row.company_name = true → (carrierMap ops s data).has row.company_name = true) ∧
    (truthy row.email = true → (userMap ops s data).has row.email = true) := by
  have key : ∀ (f : Row → Option String), truthy (f row) = true →
      ∃ v, f row = some v ∧ v ∈ jsSet (filterBoolean (data.map f)) := by
    intro f ht
    cases hv : f row with
    | none =>
      rw [hv] at ht
      cases ht
    | some v =>
      rw [hv] at ht
      exact ⟨v, rfl, (mem_unique_column data f v).2 ⟨by simpa [truthy] using ht, row, hr, hv⟩⟩
  refine ⟨fun ht => ?_, fun ht => ?_, fun ht => ?_, fun ht => ?_⟩
  · obtain ⟨v, e, hv⟩ := key (fun r => r.agent) ht
    rw [e]
    exact JsMap.has_merged_of_created (uniqueAgents data) (createdAgents ops s data)
      (fun d => d.name) (agentMap₀ s data) (createdAgents_names ops s data h) v hv
  · obtain ⟨v, e, hv⟩ := key (fun r => r.category_name) ht
    rw [e]
    exact JsMap.has_merged_of_created (uniqueCategories data) (createdCategories ops s data)
      (fun d => d.category_name) (categoryMap₀ s data) (createdCategories_names ops s data h)
      v hv
  · obtain ⟨v, e, hv⟩ := key (fun r => r.company_name) ht
    rw [e]
    exact JsMap.has_merged_of_created (uniqueCarriers data) (createdCarriers ops s data)
      (fun d => d.company_name) (carrierMap₀ s data) (createdCarriers_names ops s data h) v hv
  · obtain ⟨v, e, hv⟩ := key (fun r => r.email) ht
    rw [e]
    exact JsMap.has_merged_of_created (uniqueEmails data) (createdUsers ops s data)
      (fun d => d.email) (userMap₀ s data) (createdUsers_emails ops s data h) v hv

/-- The fix-up pass throws nothing when the user of every row resolved. -/
theorem policiesToInsert_ok_of_resolved (ops : StoreOps) (s : Store) (data : List Row)
    (h : ∀ row ∈ data, (userMap ops s data).has row.email = true) :
    ∃ ps, policiesToInsert ops s data = .ok ps := by
  have one : ∀ q, (∃ row ∈ data, PolicySource ops s data row q) →
      ∃ p, updatePolicyAccount ops s data q = .ok p := by
    rintro q ⟨row, hr, hs⟩
    have hn : row.policy_number = q.policyNumber := by
      obtain ⟨_, _, _, _, _, _, _, _, _, _, _, _, hn⟩ := hs
      exact hn.symm
    obtain ⟨row', hf, _⟩ := find_of_mem_column data (fun r => r.policy_number) q.policyNumber
      ⟨row, hr, hn⟩
    obtain ⟨u, hu⟩ := (JsMap.has_eq_true_iff _ _).1 (h row' (List.mem_of_find?_eq_some hf))
    unfold updatePolicyAccount
    rw [hf]
    dsimp only
    rw [hu]
    dsimp only
    split
    · split
      · exact ⟨_, rfl⟩
      · exact ⟨_, rfl⟩
    · exact ⟨_, rfl⟩
  have all : ∀ qs : List NewPolicy, (∀ q ∈ qs, ∃ row ∈ data, PolicySource ops s data row q) →
      ∃ ps, updatePolicyAccounts ops s data qs = .ok ps := by
    intro qs
    induction qs with
    | nil => exact fun _ => ⟨[], rfl⟩
    | cons q qs ih =>
      intro hq
      obtain ⟨p, hp⟩ := one q (hq q (List.mem_cons_self q qs))
      obtain ⟨ps, hps⟩ := ih (fun r hr => hq r (List.mem_cons_of_mem q hr))
      refine ⟨p :: ps, ?_⟩
      unfold updatePolicyAccounts
      rw [hp, hps]
  exact all _ (fun q hq => staged_policy_source ops s data q hq)


/-- C11 (counterexample): on the empty store, the three-row scenario whose rows carry no
first name stages the two users, but the user insert, applying the `required` validator
of the schema, creates none of them; no row resolves its user, so no policy is handed to
the policy insert, and the run returns `true` with 0 new policies in its summary. -/
theorem scenario_without_first_name :
    (newUsers Store.empty bareScenarioBatch).map (fun u => u.email) =
        [some "a@x.com", some "b@x.com"] ∧
      createdUsers StoreOps.requireFirstName Store.empty bareScenarioBatch = [] ∧
      stagedPolicies StoreOps.requireFirstName Store.empty bareScenarioBatch = [] ∧
      insertToDatabaseOptimized StoreOps.requireFirstName Store.empty bareScenarioBatch =
        .ok true ∧
      loggedSummary StoreOps.requireFirstName Store.empty bareScenarioBatch =
        .ok ⟨1, 0, 2, 0, 1, 0, 2, 0, 0, 0⟩ :=
  ⟨rfl, rfl, rfl, rfl, rfl⟩

/-- C11 (as amended): on the empty store, when the agent, category, carrier, user and
account inserts persist every staged record as submitted, the three-row scenario
(whatever the non-empty agents and carriers, the account names and the other columns)
finds no existing user and stages the two users `a@x.com` and `b@x.com`, stages the two
categories Auto and Home, and hands the three policies P1, P2 and P3 to the policy
insert, one per row; the run returns `true` and its summary counts 2 new users,
0 existing users, 2 new categories and 3 new policies. -/
theorem three_row_scenario (ops : StoreOps) (b₁ b₂ b₃ : Row)
    (a₁ a₂ a₃ k₁ k₂ k₃ n₁ n₂ n₃ : String) (data : List Row)
    (hd : data = scenarioBatch b₁ b₂ b₃ a₁ a₂ a₃ k₁ k₂ k₃ n₁ n₂ n₃)
    (ha₁ : a₁ ≠ "") (ha₂ : a₂ ≠ "") (ha₃ : a₃ ≠ "")
    (hk₁ : k₁ ≠ "") (hk₂ : k₂ ≠ "") (hk₃ : k₃ ≠ "")
    (h : PersistsAsSubmitted ops Store.empty data) :
    existingUsers Store.empty data = [] ∧
    (newUsers Store.empty data).map (fun u => u.email) = [some "a@x.com", some "b@x.com"] ∧
    newCategories Store.empty data = [⟨"Auto"⟩, ⟨"Home"⟩] ∧
    insertToDatabaseOptimized ops Store.empty data = .ok true ∧
    ∃ ps sm, policiesToInsert ops Store.empty data = .ok ps ∧
      ps.map (fun p => p.policyNumber) = [some "P1", some "P2", some "P3"] ∧
      ps.length = data.length ∧
      loggedSummary ops Store.empty data = .ok sm ∧
      sm.newUsers = 2 ∧ sm.existingUsers = 0 ∧ sm.newCategories = 2 ∧ sm.newPolicies = 3 := by
  have hex : existingUsers Store.empty data = [] := rfl
  have hnu : (newUsers Store.empty data).map (fun u => u.email) =
      [some "a@x.com", some "b@x.com"] := by
    subst hd
    rfl
  have hnc : newCategories Store.empty data = [⟨"Auto"⟩, ⟨"Home"⟩] := by
    subst hd
    rfl
  have hrows : ∀ row ∈ data, truthy row.agent = true ∧ truthy row.category_name = true ∧
      truthy row.company_name = true ∧ truthy row.email = true := by
    intro row hr
    subst hd
    simp only [scenarioBatch, List.mem_cons, List.mem_singleton, List.not_mem_nil,
      or_false] at hr
    rcases hr with rfl | rfl | rfl
    · exact ⟨by simp [Row.withKeys, truthy, ha₁], rfl, by simp [Row.withKeys, truthy, hk₁], rfl⟩
    · exact ⟨by simp [Row.withKeys, truthy, ha₂], rfl, by simp [Row.withKeys, truthy, hk₂], rfl⟩
    · exact ⟨by simp [Row.withKeys, truthy, ha₃], rfl, by simp [Row.withKeys, truthy, hk₃], rfl⟩
  have hgate : ∀ row ∈ data, passesPolicyGates ops Store.empty data row = true := by
    intro row hr
    obtain ⟨t1, t2, t3, t4⟩ := hrows row hr
    obtain ⟨g1, g2, g3, g4⟩ := lookups_hold_batch_keys ops Store.empty data h row hr
    have hn : row.policy_number ∉ existingPolicyNumbers Store.empty data := by
      rw [mem_existingPolicyNumbers]
      rintro ⟨d, hd', _⟩
      cases hd'
    unfold passesPolicyGates
    simp [g1 t1, g2 t2, g3 t3, g4 t4, hn]
  obtain ⟨ps, hps⟩ := policiesToInsert_ok_of_resolved ops Store.empty data
    (fun row hr => (lookups_hold_batch_keys ops Store.empty data h row hr).2.2.2
      (hrows row hr).2.2.2)
  have hnum : ps.map (fun p => p.policyNumber) = [some "P1", some "P2", some "P3"] := by
    rw [updatePolicyAccounts_numbers ops Store.empty data _ ps hps]
    unfold stagedPolicies staging
    rw [foldl_stageRow_numbers, List.filter_eq_self.2 hgate]
    subst hd
    rfl
  have hlen : ps.length = 3 := by
    have := congrArg List.length hnum
    simpa using this
  have hrej := bulkInsertRejects_of_persists ops Store.empty data h
  have hsum : loggedSummary ops Store.empty data = .ok
      ⟨(newAgents Store.empty data).length, (existingAgents Store.empty data).length,
        (newCategories Store.empty data).length, (existingCategories Store.empty data).length,
        (newCarriers Store.empty data).length, (existingCarriers Store.empty data).length,
        (newUsers Store.empty data).length, (existingUsers Store.empty data).length,
        (accountsToInsert ops Store.empty data).length, ps.length⟩ := by
    unfold loggedSummary
    rw [hrej, hps]
    rfl
  refine ⟨hex, hnu, hnc, ?_, ps, _, hps, hnum, ?_, hsum, ?_, ?_, ?_, ?_⟩
  · unfold insertToDatabaseOptimized
    rw [hrej, hps]
    rfl
  · rw [hlen, hd]
    rfl
  · have := congrArg List.length hnu
    simpa using this
  · rw [hex]
    rfl
  · rw [hnc]
    rfl
  · exact hlen

/-- C11 (witness): the scenario with a first name and a start date in every row, on the
store driver that persists every record. -/
theorem three_row_scenario_witness :
    insertToDatabaseOptimized StoreOps.persistAll Store.empty namedScenarioBatch = .ok true :=
  (three_row_scenario StoreOps.persistAll Row.named Row.named Row.named "Ann" "Ann" "Ann"
    "Acme" "Acme" "Acme" "A1" "A2" "B1" namedScenarioBatch rfl (by decide) (by decide)
    (by decide) (by decide) (by decide) (by decide)
    ⟨⟨rfl, rfl⟩, ⟨rfl, rfl⟩, ⟨rfl, rfl⟩, ⟨rfl, rfl⟩, rfl⟩).2.2.2.1

/-! ## Worker -/

theorem insertToDatabaseOptimized_ok (ops : StoreOps) (s : Store) (data : List Row) (b : Bool)
    (h : insertToDatabaseOptimized ops s data = .ok b) :
    b = true ∧ bulkInsertRejects ops s data = false ∧
      ∃ policies, policiesToInsert ops s data = .ok policies := by
  unfold insertToDatabaseOptimized at h
  cases hr : bulkInsertRejects ops s data with
  | true =>
    rw [hr] at h
    cases h
  | false =>
    rw [hr] at h
    cases hp : policiesToInsert ops s data with
    | error e =>
      rw [hp] at h
      cases h
    | ok policies =>
      rw [hp] at h
      cases h
      exact ⟨rfl, rfl, policies, rfl⟩

/-- C12 (counterexample): the first run on `singleRowBatch` and the second run on the
store it leaves log different summaries (one new record of every kind, then none), and
both post the same message. -/
theorem message_hides_summary :
    loggedSummary StoreOps.persistAll Store.empty singleRowBatch =
        .ok ⟨1, 0, 1, 0, 1, 0, 1, 0, 1, 1⟩ ∧
      loggedSummary StoreOps.persistAll
          (storeAfter StoreOps.persistAll Store.empty singleRowBatch) singleRowBatch =
        .ok ⟨0, 1, 0, 1, 0, 1, 0, 1, 0, 0⟩ ∧
      postedMessages "upload.csv" (.ended singleRowBatch) StoreOps.persistAll Store.empty =
        postedMessages "upload.csv" (.ended singleRowBatch) StoreOps.persistAll
          (storeAfter StoreOps.persistAll Store.empty singleRowBatch) :=
  ⟨rfl, rfl, rfl⟩

/-- C12 (as amended): on a successful run the single message the worker posts carries
the success flag, the number of parsed rows and the parsed rows, whatever the store held
and the run created; the counts of new and existing agents, categories, carriers and
users, of new accounts and of new policies go to the console only. -/
theorem success_message (filePath : String) (ops : StoreOps) (s : Store) (data : List Row)
    (h : insertToDatabaseOptimized ops s data = .ok true) :
    postedMessages filePath (.ended data) ops s = [.success data.length data] ∧
    (∀ ops' s', insertToDatabaseOptimized ops' s' data = .ok true →
      postedMessages filePath (.ended data) ops' s' =
        postedMessages filePath (.ended data) ops s) ∧
    ∃ policies, policiesToInsert ops s data = .ok policies ∧
      loggedSummary ops s data = .ok {
        newAgents := (newAgents s data).length
        existingAgents := (existingAgents s data).length
        newCategories := (newCategories s data).length
        existingCategories := (existingCategories s data).length
        newCarriers := (newCarriers s data).length
        existingCarriers := (existingCarriers s data).length
        newUsers := (newUsers s data).length
        existingUsers := (existingUsers s data).length
        newAccounts := (accountsToInsert ops s data).length
        newPolicies := policies.length } := by
  have hm : ∀ ops' s', insertToDatabaseOptimized ops' s' data = .ok true →
      postedMessages filePath (.ended data) ops' s' = [.success data.length data] := by
    intro ops' s' h'
    unfold postedMessages processCSV
    simp only [h']
  refine ⟨hm ops s h, fun ops' s' h' => (hm ops' s' h').trans (hm ops s h).symm, ?_⟩
  obtain ⟨_, hr, policies, hp⟩ := insertToDatabaseOptimized_ok ops s data true h
  refine ⟨policies, hp, ?_⟩
  unfold loggedSummary
  rw [hr, hp]
  rfl

/-- C12 (witness): the message of the successful run on `singleRowBatch`. -/
theorem success_message_witness :
    postedMessages "upload.csv" (.ended singleRowBatch) StoreOps.persistAll Store.empty =
      [.success 1 singleRowBatch] :=
  (success_message "upload.csv" StoreOps.persistAll Store.empty singleRowBatch rfl).1

/-- C13: when the read stream reports an error (the file at `filePath` cannot be read), no
handler sees it: the promise of `processCSV` never settles, nothing is unlinked, and the
worker posts no message at all, neither the success nor the failure. -/
theorem read_error_posts_no_message (filePath message : String) (ops : StoreOps)
    (s : Store) :
    (processCSV filePath (.readError message) ops s).settled = none ∧
      (processCSV filePath (.readError message) ops s).unlinked = [] ∧
      postedMessages filePath (.readError message) ops s = [] :=
  ⟨rfl, rfl, rfl⟩

/-- The effects of `processCSV` on the three outcomes it handles: it hands the file to
`fs.unlink` exactly when the parser stream ended and `insertToDatabaseOptimized`
returned; when the parser stream reports an error or the database phase throws, it
unlinks nothing and the only message posted is the failure with the message of that
error; on success the only message posted is the success. -/
theorem file_unlinked_iff_success (filePath : String) (stream : StreamOutcome)
    (ops : StoreOps) (s : Store) :
    ((processCSV filePath stream ops s).unlinked = [filePath] ↔
      ∃ data, stream = .ended data ∧ insertToDatabaseOptimized ops s data = .ok true) ∧
    ((processCSV filePath stream ops s).unlinked = [filePath] ∨
      (processCSV filePath stream ops s).unlinked = []) ∧
    (∀ message, stream = .error message →
      (processCSV filePath stream ops s).unlinked = [] ∧
        postedMessages filePath stream ops s = [.failure message]) ∧
    (∀ data dbError, stream = .ended data →
      insertToDatabaseOptimized ops s data = .error dbError →
      (processCSV filePath stream ops s).unlinked = [] ∧
        postedMessages filePath stream ops s = [.failure dbError]) ∧
    (∀ data, stream = .ended data → insertToDatabaseOptimized ops s data = .ok true →
      (processCSV filePath stream ops s).unlinked = [filePath] ∧
        postedMessages filePath stream ops s = [.success data.length data]) := by
  cases stream with
  | readError message =>
    refine ⟨⟨fun h => ?_, fun ⟨_, h, _⟩ => by cases h⟩, Or.inr rfl, ?_, ?_, ?_⟩
    · simp [processCSV] at h
    · intro _ e
      cases e
    · intro _ _ e
      cases e
    · intro _ e
      cases e
  | error message =>
    refine ⟨⟨fun h => ?_, fun ⟨_, h, _⟩ => by cases h⟩, Or.inr rfl, ?_, ?_, ?_⟩
    · simp [processCSV] at h
    · intro m e
      cases e
      exact ⟨rfl, rfl⟩
    · intro _ _ e
      cases e
    · intro _ e
      cases e
  | ended results =>
    cases hrun : insertToDatabaseOptimized ops s results with
    | error dbError =>
      have hu : (processCSV filePath (.ended results) ops s).unlinked = [] := by
        simp [processCSV, hrun]
      have hp : postedMessages filePath (.ended results) ops s = [.failure dbError] := by
        simp [postedMessages, processCSV, hrun]
      refine ⟨⟨fun h => ?_, fun ⟨data, e, h⟩ => ?_⟩, Or.inr hu, ?_, ?_, ?_⟩
      · rw [hu] at h
        cases h
      · cases e
        rw [hrun] at h
        cases h
      · intro _ e
        cases e
      · intro data e' he h
        cases he
        rw [hrun] at h
        cases h
        exact ⟨hu, hp⟩
      · intro data he h
        cases he
        rw [hrun] at h
        cases h
    | ok b =>
      obtain ⟨rfl, _⟩ := insertToDatabaseOptimized_ok ops s results b hrun
      have hu : (processCSV filePath (.ended results) ops s).unlinked = [filePath] := by
        simp [processCSV, hrun]
      have hp : postedMessages filePath (.ended results) ops s =
          [.success results.length results] := by
        simp [postedMessages, processCSV, hrun]
      refine ⟨⟨fun _ => ⟨results, rfl, hrun⟩, fun _ => hu⟩, Or.inl hu, ?_, ?_, ?_⟩
      · intro _ e
        cases e
      · intro data e' he h
        cases he
        rw [hrun] at h
        cases h
      · intro data he _
        cases he
        exact ⟨hu, hp⟩

/-! ## User candidates -/

theorem userCandidate_gender (toLowerCase : String → String) (row : Row) :
    (truthy row.gender = false ∧ (userCandidate row).gender.value toLowerCase = "other") ∨
      ∃ g, row.gender = some g ∧ g ≠ "" ∧
        (userCandidate row).gender.value toLowerCase = toLowerCase g := by
  unfold userCandidate
  cases hg : row.gender with
  | none => exact Or.inl ⟨rfl, rfl⟩
  | some g =>
    by_cases he : g = ""
    · subst he
      exact Or.inl ⟨rfl, rfl⟩
    · exact Or.inr ⟨g, rfl, he, by simp [he, JsText.value]⟩

/-- C14 (counterexample): on the empty store the row of `unknownGenderBatch`, whose gender
column holds `Unknown`, stages a user candidate whose gender is `'Unknown'.toLowerCase()`,
that is `unknown`, which is not in the enum of the schema. -/
theorem unknown_gender_staged :
    (newUsers Store.empty unknownGenderBatch).map (fun u => u.gender) =
        [.lowerCase "Unknown"] ∧
      (JsText.lowerCase "Unknown").value lowerAscii = "unknown" ∧
      "unknown" ∉ genderEnum := by
  decide

/-- C14 (as amended): whatever the built-in `toLowerCase` computes, every staged user
candidate is drawn from a row of the batch, and its gender is `other` when the gender
column of that row is absent or empty, and the lower-cased column value otherwise; so it
is in the enum of the schema only when the column is absent or empty, or lower-cases to
male, female or other. -/
theorem staged_gender (toLowerCase : String → String) (s : Store) (data : List Row)
    (u : NewUser) (hu : u ∈ newUsers s data) :
    ∃ row ∈ data, u = userCandidate row ∧
      ((truthy row.gender = false ∧ u.gender.value toLowerCase = "other") ∨
        ∃ g, row.gender = some g ∧ g ≠ "" ∧ u.gender.value toLowerCase = toLowerCase g) ∧
      (u.gender.value toLowerCase ∈ genderEnum ↔
        truthy row.gender = false ∨
          ∃ g, row.gender = some g ∧ g ≠ "" ∧ toLowerCase g ∈ genderEnum) := by
  unfold newUsers at hu
  rw [List.mem_filterMap] at hu
  obtain ⟨k, _, hk⟩ := hu
  cases hf : data.find? (fun r => decide (r.email = some k)) with
  | none => simp [hf] at hk
  | some row =>
    rw [hf] at hk
    by_cases hh : (userMap₀ s data).has (some k)
    · simp [hh] at hk
    · simp only [hh, Bool.not_false, if_true, Option.some.injEq, Bool.false_eq_true] at hk
      subst hk
      refine ⟨row, List.mem_of_find?_eq_some hf, rfl, userCandidate_gender toLowerCase row, ?_⟩
      rcases userCandidate_gender toLowerCase row with ⟨h1, h2⟩ | ⟨g, h1, h2, h3⟩
      · rw [h2]
        exact ⟨fun _ => Or.inl h1, fun _ => by decide⟩
      · rw [h3]
        constructor
        · exact fun h => Or.inr ⟨g, h1, h2, h⟩
        · rintro (h | ⟨g', e, _, h⟩)
          · rw [h1] at h
            simp [truthy, h2] at h
          · rw [h1] at e
            cases e
            exact h

/-- C14 (witness): the candidate staged for `singleRowBatch`, whose rows have no gender
column, has the gender `other`. -/
theorem staged_gender_witness :
    ∃ row ∈ singleRowBatch, truthy row.gender = false ∧
      (userCandidate (Row.ofKeys "Ann" "Auto" "Acme" "a@x.com" "A1" "P1")).gender.value
        lowerAscii ∈ genderEnum := by
  obtain ⟨row, hr, _, _, h⟩ := staged_gender lowerAscii Store.empty singleRowBatch
    (userCandidate (Row.ofKeys "Ann" "Auto" "Acme" "a@x.com" "A1" "P1")) (by decide)
  have hrow : row = Row.ofKeys "Ann" "Auto" "Acme" "a@x.com" "A1" "P1" := by
    simpa [singleRowBatch] using hr
  have ht : truthy row.gender = false := by
    rw [hrow]
    rfl
  exact ⟨row, hr, ht, h.2 (Or.inl ht)⟩

/-! ## CPU monitor -/

namespace CPUMonitor

theorem stop_fields (m : CPUMonitor) :
    m.stop.threshold = m.threshold ∧ m.stop.consecutiveHighUsage = m.consecutiveHighUsage ∧
      m.stop.requiredConsecutiveChecks = m.requiredConsecutiveChecks := by
  unfold stop
  split <;> exact ⟨rfl, rfl, rfl⟩

theorem start_fields (m : CPUMonitor) :
    m.start.threshold = m.threshold ∧ m.start.consecutiveHighUsage = m.consecutiveHighUsage ∧
      m.start.requiredConsecutiveChecks = m.requiredConsecutiveChecks := by
  unfold start
  split <;> exact ⟨rfl, rfl, rfl⟩

/-- The callback on one sample: the threshold and the required count are kept, the
counter is incremented on a high sample and reset otherwise, and `restartServer` is
invoked exactly when the incremented counter reaches the required count. -/
theorem onUsage_spec (m : CPUMonitor) (usage : ℚ) :
    (m.onUsage usage).1.threshold = m.threshold ∧
      (m.onUsage usage).1.requiredConsecutiveChecks = m.requiredConsecutiveChecks ∧
      (m.onUsage usage).1.consecutiveHighUsage =
        (if usage ≥ m.threshold then m.consecutiveHighUsage + 1 else 0) ∧
      ((m.onUsage usage).2 = true ↔
        usage ≥ m.threshold ∧ m.consecutiveHighUsage + 1 ≥ m.requiredConsecutiveChecks) := by
  unfold onUsage
  by_cases h : usage ≥ m.threshold
  · by_cases h2 : m.consecutiveHighUsage + 1 ≥ m.requiredConsecutiveChecks
    · simp only [h, h2, if_true, true_and, and_self, iff_true]
      exact ⟨(stop_fields _).1, (stop_fields _).2.2, (stop_fields _).2.1, trivial⟩
    · simp [h, h2]
  · simp [h]

theorem feed_append (m : CPUMonitor) (pre : List ℚ) (usage : ℚ) :
    m.feed (pre ++ [usage]) = ((m.feed pre).onUsage usage).1 := by
  unfold feed
  rw [List.foldl_append]
  rfl

theorem feed_fields (m : CPUMonitor) (samples : List ℚ) :
    (m.feed samples).threshold = m.threshold ∧
      (m.feed samples).requiredConsecutiveChecks = m.requiredConsecutiveChecks := by
  induction samples using List.reverseRecOn with
  | nil => exact ⟨rfl, rfl⟩
  | append_singleton pre usage ih =>
    rw [feed_append]
    obtain ⟨h1, h2, _⟩ := onUsage_spec (m.feed pre) usage
    exact ⟨h1.trans ih.1, h2.trans ih.2⟩

end CPUMonitor

theorem trailingRun_append (threshold : ℚ) (pre : List ℚ) (usage : ℚ) :
    trailingRun threshold (pre ++ [usage]) =
      if usage ≥ threshold then trailingRun threshold pre + 1 else 0 := by
  unfold trailingRun
  rw [List.reverse_append, List.reverse_singleton, List.singleton_append, List.takeWhile_cons]
  by_cases h : usage ≥ threshold <;> simp [h]

/-- The trailing run has at least two samples exactly when the last two samples are high. -/
theorem two_le_trailingRun (threshold : ℚ) (pre : List ℚ) :
    2 ≤ trailingRun threshold pre ↔
      ∃ init a b, pre = init ++ [a, b] ∧ a ≥ threshold ∧ b ≥ threshold := by
  induction pre using List.reverseRecOn with
  | nil =>
    simp [trailingRun]
  | append_singleton l b _ =>
    induction l using List.reverseRecOn with
    | nil =>
      rw [trailingRun_append]
      constructor
      · intro h
        by_cases hb : b ≥ threshold
        · simp [hb, trailingRun] at h
        · simp [hb] at h
      · rintro ⟨init, a, c, e, _, _⟩
        have := congrArg List.length e
        simp at this
    | append_singleton init a _ =>
      rw [trailingRun_append, trailingRun_append]
      constructor
      · intro h
        by_cases hb : b ≥ threshold
        · by_cases ha : a ≥ threshold
          · exact ⟨init, a, b, by simp, ha, hb⟩
          · simp [hb, ha] at h
        · simp [hb] at h
      · rintro ⟨init', a', b', e, ha, hb⟩
        have e' : init ++ [a, b] = init' ++ [a', b'] := by simpa using e
        have hl : init.length = init'.length := by
          have := congrArg List.length e'
          simpa using this
        obtain ⟨_, e2⟩ := List.append_inj e' hl
        simp only [List.cons.injEq, and_true] at e2
        obtain ⟨rfl, rfl⟩ := e2
        simp [ha, hb]


theorem CPUMonitor.fresh_fields (threshold : ℚ) (checkInterval : Nat) :
    (CPUMonitor.new threshold checkInterval).start.threshold = threshold ∧
      (CPUMonitor.new threshold checkInterval).start.consecutiveHighUsage = 0 ∧
      (CPUMonitor.new threshold checkInterval).start.requiredConsecutiveChecks = 3 := by
  obtain ⟨h1, h2, h3⟩ := CPUMonitor.start_fields (CPUMonitor.new threshold checkInterval)
  exact ⟨h1, h2, h3⟩

theorem CPUMonitor.feed_counter (threshold : ℚ) (checkInterval : Nat) (samples : List ℚ) :
    ((CPUMonitor.new threshold checkInterval).start.feed samples).consecutiveHighUsage =
      trailingRun threshold samples := by
  induction samples using List.reverseRecOn with
  | nil => exact (CPUMonitor.fresh_fields threshold checkInterval).2.1
  | append_singleton pre usage ih =>
    rw [CPUMonitor.feed_append, trailingRun_append, ← ih]
    have h := (CPUMonitor.onUsage_spec
      ((CPUMonitor.new threshold checkInterval).start.feed pre) usage).2.2.1
    rw [(CPUMonitor.feed_fields _ pre).1, (CPUMonitor.fresh_fields threshold checkInterval).1] at h
    exact h

/-- C15: starting from a fresh monitor, after every sequence of usage samples
`consecutiveHighUsage` is the length of the trailing run of samples at or above the
threshold; the callback invokes `restartServer` on a sample exactly when that sample and
the two samples immediately before it are all at or above the threshold; and a sample
below the threshold leaves the counter at 0. -/
theorem cpu_monitor_restart (threshold : ℚ) (checkInterval : Nat) :
    (∀ samples,
      ((CPUMonitor.new threshold checkInterval).start.feed samples).consecutiveHighUsage =
        trailingRun threshold samples) ∧
    (∀ pre usage,
      (((CPUMonitor.new threshold checkInterval).start.feed pre).onUsage usage).2 = true ↔
        usage ≥ threshold ∧
          ∃ init a b, pre = init ++ [a, b] ∧ a ≥ threshold ∧ b ≥ threshold) ∧
    (∀ pre usage, usage < threshold →
      ((CPUMonitor.new threshold checkInterval).start.feed
        (pre ++ [usage])).consecutiveHighUsage = 0) := by
  refine ⟨CPUMonitor.feed_counter threshold checkInterval, ?_, ?_⟩
  · intro pre usage
    rw [(CPUMonitor.onUsage_spec _ usage).2.2.2, (CPUMonitor.feed_fields _ pre).1,
      (CPUMonitor.feed_fields _ pre).2, (CPUMonitor.fresh_fields threshold checkInterval).1,
      (CPUMonitor.fresh_fields threshold checkInterval).2.2,
      CPUMonitor.feed_counter threshold checkInterval pre, ← two_le_trailingRun]
    constructor
    · rintro ⟨h1, h2⟩
      exact ⟨h1, by omega⟩
    · rintro ⟨h1, h2⟩
      exact ⟨h1, by omega⟩
  · intro pre usage h
    rw [CPUMonitor.feed_counter, trailingRun_append]
    simp [not_le.2 h]

/-- C15 (witness): with the threshold 7/10, the sample 1/2 after three high samples
leaves the counter at 0. -/
theorem cpu_monitor_restart_witness :
    ((CPUMonitor.new (7 / 10) 5000).start.feed
      ([4 / 5, 9 / 10, 3 / 4] ++ [1 / 2])).consecutiveHighUsage = 0 :=
  (cpu_monitor_restart (7 / 10) 5000).2.2 [4 / 5, 9 / 10, 3 / 4] (1 / 2) (by norm_num)

/-! ## Account lookup key -/

/-- Two lists cut at the last occurrence of a separator have the same parts. -/
theorem append_sep_inj {α : Type} (c : α) (l₁ l₂ r₁ r₂ : List α) (h₁ : c ∉ r₁) (h₂ : c ∉ r₂)
    (h : l₁ ++ c :: r₁ = l₂ ++ c :: r₂) : l₁ = l₂ ∧ r₁ = r₂ := by
  have hr := congrArg List.reverse h
  simp only [List.reverse_append, List.reverse_cons, List.append_assoc,
    List.singleton_append] at hr
  have key : ∀ (x y p q : List α), c ∉ x → c ∉ y → x ++ c :: p = y ++ c :: q →
      x = y ∧ p = q := by
    intro x
    induction x with
    | nil =>
      intro y p q _ hy e
      cases y with
      | nil => exact ⟨rfl, by simpa using e⟩
      | cons b y =>
        simp only [List.nil_append, List.cons_append, List.cons.injEq] at e
        exact absurd (e.1 ▸ List.mem_cons_self b y) hy
    | cons a x ih =>
      intro y p q hx hy e
      cases y with
      | nil =>
        simp only [List.nil_append, List.cons_append, List.cons.injEq] at e
        exact absurd (e.1 ▸ List.mem_cons_self a x) hx
      | cons b y =>
        simp only [List.cons_append, List.cons.injEq] at e
        obtain ⟨e1, e2⟩ := ih y p q (fun hc => hx (List.mem_cons_of_mem a hc))
          (fun hc => hy (List.mem_cons_of_mem b hc)) e.2
        exact ⟨by rw [e.1, e1], e2⟩
  obtain ⟨e1, e2⟩ := key r₁.reverse r₂.reverse l₁.reverse l₂.reverse
    (by simpa using h₁) (by simpa using h₂) hr
  exact ⟨List.reverse_injective e2, List.reverse_injective e1⟩

theorem accountKeyOf_data (name : Option String) (user : Id) :
    (accountKeyOf name user).data = (template name).data ++ '_' :: user.data := by
  unfold accountKeyOf
  simp [String.data_append]

/-- Equal account keys of identifiers without underscore: the identifiers are equal and
the names print the same. -/
theorem accountKeyOf_inj (n₁ n₂ : Option String) (u₁ u₂ : Id) (h₁ : '_' ∉ u₁.data)
    (h₂ : '_' ∉ u₂.data) (h : accountKeyOf n₁ u₁ = accountKeyOf n₂ u₂) :
    template n₁ = template n₂ ∧ u₁ = u₂ := by
  have hd := congrArg String.data h
  rw [accountKeyOf_data, accountKeyOf_data] at hd
  obtain ⟨e1, e2⟩ := append_sep_inj '_' _ _ _ _ h₁ h₂ hd
  exact ⟨String.ext e1, String.ext e2⟩

/-- C16 (counterexample): for one user identifier without underscore, the account without
name and the account named `undefined` are different pairs with the same lookup key. -/
theorem absent_name_key_collision :
    '_' ∉ ("u1" : Id).data ∧ (none : Option String) ≠ some "undefined" ∧
      accountKeyOf none "u1" = accountKeyOf (some "undefined") "u1" :=
  ⟨by decide, by decide, rfl⟩

/-- C16 (as amended): when the user identifiers contain no underscore, equal lookup keys
force equal user identifiers and names that print the same; so two pairs with equal keys
are equal when both account names are present, or both are absent, and the only pairs
the lookup identifies are an absent name and the name `undefined` of one user. -/
theorem account_key_injective (n₁ n₂ : Option String) (u₁ u₂ : Id) (h₁ : '_' ∉ u₁.data)
    (h₂ : '_' ∉ u₂.data) (h : accountKeyOf n₁ u₁ = accountKeyOf n₂ u₂) :
    u₁ = u₂ ∧
      (n₁ = n₂ ∨ (n₁ = none ∧ n₂ = some "undefined") ∨
        (n₁ = some "undefined" ∧ n₂ = none)) ∧
      (n₁.isSome = n₂.isSome → n₁ = n₂) := by
  obtain ⟨e1, e2⟩ := accountKeyOf_inj n₁ n₂ u₁ u₂ h₁ h₂ h
  refine ⟨e2, ?_, ?_⟩
  · cases n₁ <;> cases n₂ <;> simp_all [template]
  · intro hs
    cases n₁ <;> cases n₂ <;> simp_all [template]

/-- C16 (witness): the keys of `A1` for the user `u1` agree only with themselves. -/
theorem account_key_injective_witness :
    (some "A1" : Option String) = some "A1" ∧ ("u1" : Id) = "u1" :=
  have h := account_key_injective (some "A1") (some "A1") "u1" "u1" (by decide) (by decide) rfl
  ⟨h.2.2 rfl, h.1⟩

end InsuredMine
